import Mathlib

/-!
Verification development for the monthly attendance calendar builder of the
timelog repository (`accounts/calendar_utils.py` together with the model
methods it calls in `accounts/models.py`).

The embedding models:
  * proleptic-Gregorian calendar dates as used by Python's `datetime.date`
    (ordinals, weekdays, comparison, day stepping with the
    `date.min`/`date.max` range checks of `date + timedelta`),
  * `calendar.monthrange` / `calendar.isleap`,
  * the model classes `TimeEntry`, `PublicHoliday`,
    `EmployeeNonWorkingDay` (with `applies_to_date` and the query filters
    that `_load_calendar_data` issues, the database being passed in as an
    explicit list),
  * `CalendarDay`, `MonthlyCalendar` and its construction, navigation,
    statistics and week-grid methods.

Operations that raise in Python (`date(...)` with out-of-range components,
`calendar.monthrange` with an illegal month, `date + timedelta` leaving the
representable range) are modelled as `Option`-returning functions, `none`
standing for the raised exception.
-/

namespace Timelog

/-- A calendar date, the (year, month, day) triple held by `datetime.date`. -/
structure Date where
  year : Nat
  month : Nat
  day : Nat
deriving DecidableEq, Repr

/-- `calendar.isleap(year)`: `year % 4 == 0 and (year % 100 != 0 or year % 400 == 0)`.
The argument is an `Int` because `MonthlyCalendar` feeds it the raw `year` field. -/
def isleap (year : Int) : Bool :=
  year % 4 == 0 && (year % 100 != 0 || year % 400 == 0)

/-- The `mdays` table of the `calendar` module (index 0 is a filler). -/
def mdays : List Nat := [0, 31, 28, 31, 30, 31, 30, 31, 31, 30, 31, 30, 31]

/-- Day count of a month: `mdays[month] + (month == 2 and isleap(year))`,
the `ndays` half of `calendar.monthrange`'s result. -/
def daysInMonth (year : Int) (month : Nat) : Nat :=
  mdays.getD month 0 + (if month == 2 && isleap year then 1 else 0)

/-- `calendar.monthrange(year, month)` raises `IllegalMonthError` unless
`1 <= month <= 12`.  Only the day count is returned; the weekday of the
first day (the other half of the pair) is discarded by the source
(`_, last_day = calendar.monthrange(...)`), so it is not modelled. -/
def monthrange (year month : Int) : Option Nat :=
  if 1 ≤ month ∧ month ≤ 12 then some (daysInMonth year month.toNat) else none

/-- `datetime._days_before_year(year)`: days between 0001-01-01 and
January 1st of `year`. -/
def daysBeforeYear (year : Nat) : Nat :=
  365 * (year - 1) + (year - 1) / 4 - (year - 1) / 100 + (year - 1) / 400

/-- `datetime._days_before_month(year, month)`: days of `year` strictly
before the first of `month`. -/
def daysBeforeMonth (year month : Nat) : Nat :=
  ((List.range (month - 1)).map (fun i => daysInMonth (year : Int) (i + 1))).sum

/-- `datetime.date.toordinal()`: 0001-01-01 is ordinal 1. -/
def Date.toOrdinal (d : Date) : Nat :=
  daysBeforeYear d.year + daysBeforeMonth d.year d.month + d.day

/-- `datetime.date.weekday()`: `(toordinal() + 6) % 7`, Monday = 0 .. Sunday = 6. -/
def Date.weekday (d : Date) : Nat :=
  (d.toOrdinal + 6) % 7

/-- Python `date` comparison `a < b` (lexicographic on the (y, m, d) triple). -/
def Date.blt (a b : Date) : Bool :=
  decide (a.year < b.year) ||
    (a.year == b.year &&
      (decide (a.month < b.month) || (a.month == b.month && decide (a.day < b.day))))

/-- Python `date` comparison `a <= b`. -/
def Date.ble (a b : Date) : Bool :=
  decide (a.year < b.year) ||
    (a.year == b.year &&
      (decide (a.month < b.month) || (a.month == b.month && decide (a.day ≤ b.day))))

/-- A structurally well-formed Gregorian date (what `datetime.date` can hold,
minus the `MAXYEAR` cap, which is checked separately where it matters). -/
def Date.Valid (d : Date) : Prop :=
  1 ≤ d.year ∧ 1 ≤ d.month ∧ d.month ≤ 12 ∧ 1 ≤ d.day ∧
    d.day ≤ daysInMonth (d.year : Int) d.month

instance (d : Date) : Decidable d.Valid := by
  unfold Date.Valid; infer_instance

/-- `datetime.date(year, month, day)`: raises `ValueError` unless
`MINYEAR <= year <= MAXYEAR`, `1 <= month <= 12`, `1 <= day <= days_in_month`. -/
def date? (year month day : Int) : Option Date :=
  if 1 ≤ year ∧ year ≤ 9999 ∧ 1 ≤ month ∧ month ≤ 12 ∧
      1 ≤ day ∧ day ≤ (daysInMonth year month.toNat : Int)
  then some ⟨year.toNat, month.toNat, day.toNat⟩ else none

/-- The ordinal of `datetime.date.max` (9999-12-31), CPython's `_MAXORDINAL`. -/
def MAXORDINAL : Nat := 3652059

/-- The calendar date one day later (`date + timedelta(days=1)` without the
range check): used to model the date stepping the source performs. -/
def Date.succDate (d : Date) : Date :=
  if d.day < daysInMonth (d.year : Int) d.month then ⟨d.year, d.month, d.day + 1⟩
  else if d.month < 12 then ⟨d.year, d.month + 1, 1⟩
  else ⟨d.year + 1, 1, 1⟩

/-- The calendar date one day earlier (`date - timedelta(days=1)` without the
range check). -/
def Date.predDate (d : Date) : Date :=
  if 1 < d.day then ⟨d.year, d.month, d.day - 1⟩
  else if 1 < d.month then ⟨d.year, d.month - 1, daysInMonth (d.year : Int) (d.month - 1)⟩
  else ⟨d.year - 1, 12, 31⟩

/-- `n` days later, ignoring the range limit. -/
def Date.addN (d : Date) (n : Nat) : Date := Date.succDate^[n] d

/-- `n` days earlier, ignoring the range limit. -/
def Date.subN (d : Date) (n : Nat) : Date := Date.predDate^[n] d

/-- `date + timedelta(days=n)` for `n ≥ 0`: CPython checks
`0 < ordinal + n <= _MAXORDINAL` and raises `OverflowError` otherwise. -/
def Date.add? (d : Date) (n : Nat) : Option Date :=
  if d.toOrdinal + n ≤ MAXORDINAL then some (d.addN n) else none

/-- `date - timedelta(days=n)` for `n ≥ 0`: raises `OverflowError` unless
`0 < ordinal - n`. -/
def Date.sub? (d : Date) (n : Nat) : Option Date :=
  if n < d.toOrdinal then some (d.subN n) else none

/-- The `TimeEntry` model, reduced to the fields the calendar logic reads:
the owner (a user id) and the entry date.  The calendar only tests presence
of an entry, so start/end times, break and pollution fields are omitted. -/
structure TimeEntry where
  user : Nat
  date : Date
deriving DecidableEq, Repr

/-- The `PublicHoliday` model: name, date, recurring flag (description and
audit fields are irrelevant to the calendar logic). -/
structure PublicHoliday where
  name : String
  date : Date
  is_recurring : Bool
deriving DecidableEq, Repr

/-- `PublicHoliday.get_holidays_for_year`: holidays whose date falls in the
year, plus all recurring holidays.  The stored table is passed explicitly. -/
def PublicHoliday.get_holidays_for_year (db : List PublicHoliday) (year : Int) :
    List PublicHoliday :=
  db.filter (fun h => (h.date.year : Int) == year || h.is_recurring)

/-- The `EmployeeNonWorkingDay` model.  `pattern` is the raw choice string
("specific" / "weekly" / "monthly"); nullable columns are `Option`s. -/
structure EmployeeNonWorkingDay where
  employee : Nat
  pattern : String
  date : Option Date := none
  weekday : Option Nat := none
  day_of_month : Option Nat := none
  valid_from : Option Date := none
  valid_until : Option Date := none
  reason : Option String := none
deriving DecidableEq, Repr

/-- The validity-window test of `EmployeeNonWorkingDay.applies_to_date`:
`valid_from and check_date < valid_from`, or symmetrically for `valid_until`
(a missing bound never rejects). -/
def EmployeeNonWorkingDay.windowRejects (r : EmployeeNonWorkingDay)
    (check_date : Date) : Bool :=
  (match r.valid_from with
    | some vf => check_date.blt vf
    | none => false) ||
  (match r.valid_until with
    | some vu => vu.blt check_date
    | none => false)

/-- The pattern-match half of `EmployeeNonWorkingDay.applies_to_date`.
A `None` field compares unequal in Python, hence `false` here; an unknown
pattern string falls through to `return False`. -/
def EmployeeNonWorkingDay.patternMatches (r : EmployeeNonWorkingDay)
    (check_date : Date) : Bool :=
  if r.pattern == "specific" then
    match r.date with
    | some d => d == check_date
    | none => false
  else if r.pattern == "weekly" then
    match r.weekday with
    | some w => check_date.weekday == w
    | none => false
  else if r.pattern == "monthly" then
    match r.day_of_month with
    | some dm => check_date.day == dm
    | none => false
  else false

/-- `EmployeeNonWorkingDay.applies_to_date`: reject dates outside the
validity window, then match by pattern. -/
def EmployeeNonWorkingDay.applies_to_date (r : EmployeeNonWorkingDay)
    (check_date : Date) : Bool :=
  if r.windowRejects check_date then false else r.patternMatches check_date

/-- One day of the calendar (`CalendarDay`), with the overlay fields mutated
by `_load_calendar_data` and the `is_other_month` tag `get_weeks` sets on
padding days (absent in Python until set; `false` stands for absent). -/
structure CalendarDay where
  date : Date
  user : Nat
  time_entry : Option TimeEntry
  is_weekend : Bool
  is_public_holiday : Bool
  public_holiday_name : String
  is_employee_non_working_day : Bool
  employee_non_working_reason : String
  is_other_month : Bool
deriving DecidableEq, Repr

/-- `CalendarDay.__init__(date, user)`. -/
def CalendarDay.init (date : Date) (user : Nat) : CalendarDay :=
  { date := date
    user := user
    time_entry := none
    is_weekend := decide (5 ≤ date.weekday)
    is_public_holiday := false
    public_holiday_name := ""
    is_employee_non_working_day := false
    employee_non_working_reason := ""
    is_other_month := false }

/-- Property `CalendarDay.is_workday`. -/
def CalendarDay.is_workday (d : CalendarDay) : Bool :=
  !(d.is_weekend || d.is_public_holiday || d.is_employee_non_working_day)

/-- Property `CalendarDay.has_time_entry`. -/
def CalendarDay.has_time_entry (d : CalendarDay) : Bool :=
  d.time_entry.isSome

/-- Property `CalendarDay.is_missing_entry`. -/
def CalendarDay.is_missing_entry (d : CalendarDay) : Bool :=
  d.is_workday && !d.has_time_entry

/-- Python dict assignment `m[k] = v`: overwrites any previous binding. -/
def dictSet {α : Type} (m : List (Date × α)) (k : Date) (v : α) : List (Date × α) :=
  m.filter (fun p => !(p.1 == k)) ++ [(k, v)]

/-- Python dict lookup (`k in m` / `m[k]`). -/
def dictGet {α : Type} (m : List (Date × α)) (k : Date) : Option α :=
  (m.find? (fun p => p.1 == k)).map (fun p => p.2)

/-- The `TimeEntry.objects.filter(user=..., date__gte=..., date__lte=...)`
query of `_load_calendar_data`. -/
def timeEntriesForMonth (db : List TimeEntry) (user : Nat)
    (month_start month_end : Date) : List TimeEntry :=
  db.filter (fun e => e.user == user && month_start.ble e.date && e.date.ble month_end)

/-- The dict comprehension `{entry.date: entry for entry in time_entries}`. -/
def timeEntriesByDate (entries : List TimeEntry) : List (Date × TimeEntry) :=
  entries.foldl (fun m e => dictSet m e.date e) []

/-- The `public_holidays_by_date` loop of `_load_calendar_data`.  For a
recurring holiday whose stored month equals the calendar month, the source
builds `date(self.year, holiday.date.month, holiday.date.day)` — which
raises `ValueError` (modelled by `none`) when that day does not exist in
`self.year` (a Feb 29 recurring holiday in a non-leap year). -/
def publicHolidaysByDate (holidays : List PublicHoliday) (year month : Int)
    (month_start month_end : Date) : Option (List (Date × PublicHoliday)) :=
  holidays.foldlM (fun m holiday =>
    if holiday.is_recurring then
      if (holiday.date.month : Int) == month then
        match date? year (holiday.date.month : Int) (holiday.date.day : Int) with
        | none => none
        | some holiday_date =>
          if month_start.ble holiday_date && holiday_date.ble month_end then
            some (dictSet m holiday_date holiday)
          else some m
      else some m
    else
      if month_start.ble holiday.date && holiday.date.ble month_end then
        some (dictSet m holiday.date holiday)
      else some m) []

/-- The `EmployeeNonWorkingDay.objects.filter(employee=...)` query with its
`Q`-expression: specific dates inside the month, or weekly/monthly patterns
whose validity window overlaps the month (missing bounds are open). -/
def fetchNonWorkingDays (db : List EmployeeNonWorkingDay) (user : Nat)
    (month_start month_end : Date) : List EmployeeNonWorkingDay :=
  db.filter (fun r =>
    r.employee == user &&
    ((r.pattern == "specific" &&
        (match r.date with
          | some d => month_start.ble d && d.ble month_end
          | none => false)) ||
      ((r.pattern == "weekly" || r.pattern == "monthly") &&
        (match r.valid_from with
          | some vf => vf.ble month_end
          | none => true) &&
        (match r.valid_until with
          | some vu => month_start.ble vu
          | none => true))))

/-- The per-day overlay step (`# Apply data to calendar days`): attach the
time entry, set the public-holiday flag/name, then scan the fetched
non-working rules and attach the first whose `applies_to_date` is true
(`break  # Only one reason per day`). -/
def applyDayData (te_by_date : List (Date × TimeEntry))
    (hol_by_date : List (Date × PublicHoliday))
    (rules : List EmployeeNonWorkingDay) (day : CalendarDay) : CalendarDay :=
  let day :=
    match dictGet te_by_date day.date with
    | some entry => { day with time_entry := some entry }
    | none => day
  let day :=
    match dictGet hol_by_date day.date with
    | some holiday =>
      { day with is_public_holiday := true, public_holiday_name := holiday.name }
    | none => day
  match rules.find? (fun r => r.applies_to_date day.date) with
  | some r =>
    { day with is_employee_non_working_day := true,
               employee_non_working_reason := r.reason.getD "" }
  | none => day

/-- The dates enumerated by the day-generation loop of `_load_calendar_data`:
`(year, month, 1) .. (year, month, last_day)`. -/
def monthDates (year month last_day : Nat) : List Date :=
  (List.range last_day).map (fun i => ⟨year, month, i + 1⟩)

/-- The day-generation while-loop of `_load_calendar_data`: starting at
`month_start` and stepping `current_date += timedelta(days=1)` while
`current_date <= month_end`, it appends one `CalendarDay` per date
`(year, month, 1) .. (year, month, last_day)` (the first date past
`month_end` leaves the month and fails the lexicographic comparison).
Every iteration ends with the checked date addition, and the final one steps
past `month_end`: when `month_end` is the maximal representable date
(December 9999) that addition raises `OverflowError` (modelled as `none`)
after the last day was appended, aborting the whole build; every earlier
addition yields a date `<= month_end` and cannot overflow. -/
def buildMonthDays (year month last_day : Nat) (month_end : Date)
    (user : Nat) : Option (List CalendarDay) :=
  match month_end.add? 1 with
  | none => none
  | some _ =>
    some ((monthDates year month last_day).map (fun d => CalendarDay.init d user))

/-- `MonthlyCalendar`: year, month and user are stored as given; `days` is
filled by `_load_calendar_data`. -/
structure MonthlyCalendar where
  year : Int
  month : Int
  user : Nat
  days : List CalendarDay
deriving DecidableEq, Repr

/-- `MonthlyCalendar._load_calendar_data`, producing the `days` list.
`none` models the exceptions the source lets escape: `IllegalMonthError`
from `calendar.monthrange`, `ValueError` from `date(...)`, `OverflowError`
from the day loop's final `+= timedelta(days=1)`. -/
def load_calendar_data (year month : Int) (user : Nat)
    (timeEntryDb : List TimeEntry) (holidayDb : List PublicHoliday)
    (nonWorkingDb : List EmployeeNonWorkingDay) : Option (List CalendarDay) := do
  let last_day ← monthrange year month
  let month_start ← date? year month 1
  let month_end ← date? year month (last_day : Int)
  let days ← buildMonthDays month_start.year month_start.month last_day month_end user
  let time_entries := timeEntriesForMonth timeEntryDb user month_start month_end
  let te_by_date := timeEntriesByDate time_entries
  let public_holidays := PublicHoliday.get_holidays_for_year holidayDb year
  let hol_by_date ← publicHolidaysByDate public_holidays year month month_start month_end
  let rules := fetchNonWorkingDays nonWorkingDb user month_start month_end
  pure (days.map (applyDayData te_by_date hol_by_date rules))

/-- `MonthlyCalendar.__init__`: stores year/month/user and loads the days;
an exception during loading aborts construction (`none`). -/
def loadCalendar (year month : Int) (user : Nat)
    (timeEntryDb : List TimeEntry) (holidayDb : List PublicHoliday)
    (nonWorkingDb : List EmployeeNonWorkingDay) : Option MonthlyCalendar :=
  (load_calendar_data year month user timeEntryDb holidayDb nonWorkingDb).map
    (fun days => { year := year, month := month, user := user, days := days })

/-- Property `MonthlyCalendar.prev_month`. -/
def MonthlyCalendar.prev_month (c : MonthlyCalendar) : Int × Int :=
  if c.month == 1 then (c.year - 1, 12) else (c.year, c.month - 1)

/-- Property `MonthlyCalendar.next_month`. -/
def MonthlyCalendar.next_month (c : MonthlyCalendar) : Int × Int :=
  if c.month == 12 then (c.year + 1, 1) else (c.year, c.month + 1)

/-- The counters of the `stats` property. -/
structure CalendarStats where
  total_days : Nat
  workdays : Nat
  entries_count : Nat
  missing_entries : Nat
  weekends : Nat
  holidays : Nat
  non_working_days : Nat
deriving DecidableEq, Repr

/-- Property `MonthlyCalendar.stats`. -/
def MonthlyCalendar.stats (c : MonthlyCalendar) : CalendarStats :=
  { total_days := c.days.length
    workdays := (c.days.filter (fun d => d.is_workday)).length
    entries_count := (c.days.filter (fun d => d.has_time_entry)).length
    missing_entries := (c.days.filter (fun d => d.is_missing_entry)).length
    weekends := (c.days.filter (fun d => d.is_weekend)).length
    holidays := (c.days.filter (fun d => d.is_public_holiday)).length
    non_working_days := (c.days.filter (fun d => d.is_employee_non_working_day)).length }

/-- The week-chunking loop of `get_weeks`: append each day to the current
week and close the week after a Sunday.  Returns the closed weeks and the
still-open week. -/
def weeksLoop : List CalendarDay → List CalendarDay → List (List CalendarDay) →
    List (List CalendarDay) × List CalendarDay
  | [], current_week, weeks => (weeks, current_week)
  | day :: rest, current_week, weeks =>
    let current_week := current_week ++ [day]
    if day.date.weekday == 6 then weeksLoop rest [] (weeks ++ [current_week])
    else weeksLoop rest current_week weeks

/-- `MonthlyCalendar.get_weeks`.  The leading pad is built from
`first_day - weekday_offset`, the trailing pad from `last_day + 1 ..`; each
date arithmetic step carries Python's range check (`none` = `OverflowError`;
an empty `days` list, impossible for a constructed calendar, would raise
`IndexError` on `self.days[0]` and is also mapped to `none`). -/
def MonthlyCalendar.get_weeks (c : MonthlyCalendar) :
    Option (List (List CalendarDay)) := do
  match c.days with
  | [] => none
  | first_day :: _ =>
    let days_to_start_of_week := first_day.date.weekday
    let prev_month_start ← first_day.date.sub? days_to_start_of_week
    let lead ← (List.range days_to_start_of_week).mapM (fun i => do
      let prev_date ← prev_month_start.add? i
      pure { CalendarDay.init prev_date c.user with is_other_month := true })
    let (weeks, current_week) := weeksLoop c.days lead []
    if current_week.isEmpty then pure weeks
    else
      let last_day := c.days.getLastD first_day
      let days_to_end_of_week := 6 - last_day.date.weekday
      let trail ← (List.range days_to_end_of_week).mapM (fun i => do
        let next_date ← last_day.date.add? (i + 1)
        pure { CalendarDay.init next_date c.user with is_other_month := true })
      pure (weeks ++ [current_week ++ trail])

/-! ### Concrete instances used to exercise the definitions -/

/-- Placeholder used when extracting the value of a successful construction. -/
def emptyCalendar : MonthlyCalendar := { year := 0, month := 0, user := 0, days := [] }

/-- January 2024 (31 days, starts on a Monday) for user 0, no stored data. -/
def calJan2024 : MonthlyCalendar := (loadCalendar 2024 1 0 [] [] []).getD emptyCalendar

/-- A recurring public holiday stored on Feb 29 of a leap year. -/
def feb29Holiday : PublicHoliday :=
  { name := "Schalttag", date := ⟨2024, 2, 29⟩, is_recurring := true }

/-- A recurring public holiday stored on June 1 (June 1, 2024 is a Saturday). -/
def june1Holiday : PublicHoliday :=
  { name := "Junifeiertag", date := ⟨2020, 6, 1⟩, is_recurring := true }

/-- A weekly non-working rule for user 0 on the given weekday. -/
def weeklyRule (w : Nat) : EmployeeNonWorkingDay :=
  { employee := 0, pattern := "weekly", weekday := some w }

/-- Seven weekly rules covering every weekday of the week. -/
def everyWeekdayRules : List EmployeeNonWorkingDay :=
  [weeklyRule 0, weeklyRule 1, weeklyRule 2, weeklyRule 3, weeklyRule 4,
    weeklyRule 5, weeklyRule 6]

/-- June 2024 with the recurring June-1 holiday and non-working rules on
every weekday: June 1 is simultaneously weekend, holiday and non-working. -/
def calJune2024 : MonthlyCalendar :=
  (loadCalendar 2024 6 0 [] [june1Holiday] everyWeekdayRules).getD emptyCalendar

/-- A specific-date rule on 2024-01-10 (a Wednesday). -/
def specificRule0110 : EmployeeNonWorkingDay :=
  { employee := 0, pattern := "specific", date := some ⟨2024, 1, 10⟩,
    reason := some "Persoenlicher Tag" }

/-- A weekly rule that also covers Wednesdays, with a different reason. -/
def weeklyWedRule : EmployeeNonWorkingDay :=
  { employee := 0, pattern := "weekly", weekday := some 2,
    reason := some "Teilzeit" }

/-- January 2024 where both rules above apply to 2024-01-10. -/
def calJan2024TwoRules : MonthlyCalendar :=
  (loadCalendar 2024 1 0 [] [] [specificRule0110, weeklyWedRule]).getD emptyCalendar

/-- A monthly rule (15th) bounded by a validity window. -/
def boundedMonthlyRule : EmployeeNonWorkingDay :=
  { employee := 0, pattern := "monthly", day_of_month := some 15,
    valid_from := some ⟨2024, 1, 15⟩, valid_until := some ⟨2024, 3, 15⟩ }

/-! ### Arithmetic facts about the date model -/

theorem isleap_natCast (y : Nat) :
    isleap (y : Int) = true ↔ (y % 4 = 0 ∧ (y % 100 ≠ 0 ∨ y % 400 = 0)) := by
  simp only [isleap, Bool.and_eq_true, Bool.or_eq_true, beq_iff_eq, bne_iff_ne,
    ne_eq]
  constructor
  · rintro ⟨h4, h⟩
    refine ⟨?_, ?_⟩
    · have : ((y % 4 : Nat) : Int) = 0 := by push_cast; omega
      exact_mod_cast this
    · rcases h with h | h
      · left
        intro hc
        apply h
        push_cast
        omega
      · right
        have : ((y % 400 : Nat) : Int) = 0 := by push_cast; omega
        exact_mod_cast this
  · rintro ⟨h4, h⟩
    refine ⟨?_, ?_⟩
    · have : ((y % 4 : Nat) : Int) = 0 := by exact_mod_cast h4
      push_cast at this
      omega
    · rcases h with h | h
      · left
        intro hc
        apply h
        have : ((y % 100 : Nat) : Int) = 0 := by push_cast; omega
        exact_mod_cast this
      · right
        have : ((y % 400 : Nat) : Int) = 0 := by exact_mod_cast h
        push_cast at this
        omega

theorem daysInMonth_bounds (y : Int) (m : Nat) (h1 : 1 ≤ m) (h2 : m ≤ 12) :
    28 ≤ daysInMonth y m ∧ daysInMonth y m ≤ 31 := by
  interval_cases m <;> simp [daysInMonth, mdays] <;> split <;> omega

theorem daysInMonth_12 (y : Int) : daysInMonth y 12 = 31 := by
  simp [daysInMonth, mdays]

theorem daysBeforeMonth_one (y : Nat) : daysBeforeMonth y 1 = 0 := by
  simp [daysBeforeMonth]

theorem daysBeforeMonth_succ (y m : Nat) (hm : 1 ≤ m) :
    daysBeforeMonth y (m + 1) = daysBeforeMonth y m + daysInMonth (y : Int) m := by
  obtain ⟨k, rfl⟩ : ∃ k, m = k + 1 := ⟨m - 1, by omega⟩
  simp [daysBeforeMonth, List.range_succ]

set_option maxHeartbeats 2000000 in
theorem daysBeforeYear_succ (y : Nat) (hy : 1 ≤ y) :
    daysBeforeYear (y + 1) =
      daysBeforeYear y + 365 + (if isleap (y : Int) then 1 else 0) := by
  rcases Decidable.em (isleap (y : Int) = true) with h | h
  · rw [if_pos h]
    rw [isleap_natCast] at h
    unfold daysBeforeYear
    omega
  · rw [if_neg h]
    rw [isleap_natCast] at h
    push_neg at h
    unfold daysBeforeYear
    omega

theorem daysInMonth_ne_two (y : Int) (m : Nat) (h1 : 1 ≤ m) (h2 : m ≤ 12)
    (hne : m ≠ 2) : daysInMonth y m = mdays.getD m 0 := by
  have : (m == 2) = false := by simp [hne]
  simp [daysInMonth, this]

theorem daysInMonth_two (y : Int) :
    daysInMonth y 2 = 28 + (if isleap y then 1 else 0) := by
  simp [daysInMonth, mdays]

theorem daysBeforeMonth_13 (y : Nat) :
    daysBeforeMonth y 13 = 365 + (if isleap (y : Int) then 1 else 0) := by
  have s1 : daysBeforeMonth y 2 = daysBeforeMonth y 1 + daysInMonth (y : Int) 1 :=
    daysBeforeMonth_succ y 1 (by omega)
  have s2 : daysBeforeMonth y 3 = daysBeforeMonth y 2 + daysInMonth (y : Int) 2 :=
    daysBeforeMonth_succ y 2 (by omega)
  have s3 : daysBeforeMonth y 4 = daysBeforeMonth y 3 + daysInMonth (y : Int) 3 :=
    daysBeforeMonth_succ y 3 (by omega)
  have s4 : daysBeforeMonth y 5 = daysBeforeMonth y 4 + daysInMonth (y : Int) 4 :=
    daysBeforeMonth_succ y 4 (by omega)
  have s5 : daysBeforeMonth y 6 = daysBeforeMonth y 5 + daysInMonth (y : Int) 5 :=
    daysBeforeMonth_succ y 5 (by omega)
  have s6 : daysBeforeMonth y 7 = daysBeforeMonth y 6 + daysInMonth (y : Int) 6 :=
    daysBeforeMonth_succ y 6 (by omega)
  have s7 : daysBeforeMonth y 8 = daysBeforeMonth y 7 + daysInMonth (y : Int) 7 :=
    daysBeforeMonth_succ y 7 (by omega)
  have s8 : daysBeforeMonth y 9 = daysBeforeMonth y 8 + daysInMonth (y : Int) 8 :=
    daysBeforeMonth_succ y 8 (by omega)
  have s9 : daysBeforeMonth y 10 = daysBeforeMonth y 9 + daysInMonth (y : Int) 9 :=
    daysBeforeMonth_succ y 9 (by omega)
  have s10 : daysBeforeMonth y 11 = daysBeforeMonth y 10 + daysInMonth (y : Int) 10 :=
    daysBeforeMonth_succ y 10 (by omega)
  have s11 : daysBeforeMonth y 12 = daysBeforeMonth y 11 + daysInMonth (y : Int) 11 :=
    daysBeforeMonth_succ y 11 (by omega)
  have s12 : daysBeforeMonth y 13 = daysBeforeMonth y 12 + daysInMonth (y : Int) 12 :=
    daysBeforeMonth_succ y 12 (by omega)
  have h0 := daysBeforeMonth_one y
  have e1 : daysInMonth (y : Int) 1 = 31 := by simp [daysInMonth, mdays]
  have e2 := daysInMonth_two (y : Int)
  have e3 : daysInMonth (y : Int) 3 = 31 := by simp [daysInMonth, mdays]
  have e4 : daysInMonth (y : Int) 4 = 30 := by simp [daysInMonth, mdays]
  have e5 : daysInMonth (y : Int) 5 = 31 := by simp [daysInMonth, mdays]
  have e6 : daysInMonth (y : Int) 6 = 30 := by simp [daysInMonth, mdays]
  have e7 : daysInMonth (y : Int) 7 = 31 := by simp [daysInMonth, mdays]
  have e8 : daysInMonth (y : Int) 8 = 31 := by simp [daysInMonth, mdays]
  have e9 : daysInMonth (y : Int) 9 = 30 := by simp [daysInMonth, mdays]
  have e10 : daysInMonth (y : Int) 10 = 31 := by simp [daysInMonth, mdays]
  have e11 : daysInMonth (y : Int) 11 = 30 := by simp [daysInMonth, mdays]
  have e12 := daysInMonth_12 (y : Int)
  rcases Decidable.em (isleap (y : Int) = true) with h | h
  · rw [if_pos h] at e2 ⊢
    omega
  · rw [if_neg h] at e2 ⊢
    omega

theorem daysBeforeYear_mono (a b : Nat) (ha : 1 ≤ a) (hab : a ≤ b) :
    daysBeforeYear a ≤ daysBeforeYear b := by
  induction b, hab using Nat.le_induction with
  | base => exact le_rfl
  | succ b hb ih =>
    have := daysBeforeYear_succ b (le_trans ha hb)
    split at this <;> omega

theorem daysBeforeMonth_mono (y : Nat) (a b : Nat) (ha : 1 ≤ a) (hab : a ≤ b) :
    daysBeforeMonth y a ≤ daysBeforeMonth y b := by
  induction b, hab using Nat.le_induction with
  | base => exact le_rfl
  | succ b hb ih =>
    have := daysBeforeMonth_succ y b (le_trans ha hb)
    omega

theorem valid_mk (y m day : Nat) :
    (Date.mk y m day).Valid ↔
      (1 ≤ y ∧ 1 ≤ m ∧ m ≤ 12 ∧ 1 ≤ day ∧ day ≤ daysInMonth (y : Int) m) :=
  Iff.rfl

theorem toOrdinal_mk (y m day : Nat) :
    (Date.mk y m day).toOrdinal = daysBeforeYear y + daysBeforeMonth y m + day :=
  rfl

theorem toOrdinal_pos (d : Date) (hv : d.Valid) : 1 ≤ d.toOrdinal := by
  obtain ⟨h1, h2, h3, h4, h5⟩ := hv
  unfold Date.toOrdinal
  omega

theorem toOrdinal_succDate (d : Date) (hv : d.Valid) :
    (d.succDate).Valid ∧ (d.succDate).toOrdinal = d.toOrdinal + 1 := by
  obtain ⟨h1, h2, h3, h4, h5⟩ := hv
  obtain ⟨y, m, day⟩ := d
  simp only at h1 h2 h3 h4 h5
  unfold Date.succDate
  simp only
  rcases Decidable.em (day < daysInMonth (y : Int) m) with h | h
  · rw [if_pos h, valid_mk, toOrdinal_mk, toOrdinal_mk]
    omega
  · rw [if_neg h]
    have hday : day = daysInMonth (y : Int) m := by omega
    rcases Decidable.em (m < 12) with hm | hm
    · rw [if_pos hm, valid_mk, toOrdinal_mk, toOrdinal_mk]
      have hb := daysInMonth_bounds (y : Int) (m + 1) (by omega) (by omega)
      have hs := daysBeforeMonth_succ y m h2
      omega
    · rw [if_neg hm, valid_mk, toOrdinal_mk, toOrdinal_mk]
      have hm12 : m = 12 := by omega
      have hb := daysInMonth_bounds ((y + 1 : Nat) : Int) 1 (by omega) (by omega)
      have hys := daysBeforeYear_succ y h1
      have h13 := daysBeforeMonth_13 y
      have h12 : daysBeforeMonth y 13 = daysBeforeMonth y 12 + daysInMonth (y : Int) 12 :=
        daysBeforeMonth_succ y 12 (by omega)
      have h01 := daysBeforeMonth_one (y + 1)
      rw [daysInMonth_12] at h12
      rw [hm12, daysInMonth_12] at hday
      rw [hm12]
      rcases Decidable.em (isleap (y : Int) = true) with hl | hl
      · rw [if_pos hl] at hys h13
        omega
      · rw [if_neg hl] at hys h13
        omega

theorem toOrdinal_predDate (d : Date) (hv : d.Valid) (h2o : 2 ≤ d.toOrdinal) :
    (d.predDate).Valid ∧ (d.predDate).toOrdinal + 1 = d.toOrdinal := by
  obtain ⟨h1, h2, h3, h4, h5⟩ := hv
  obtain ⟨y, m, day⟩ := d
  simp only at h1 h2 h3 h4 h5
  rw [toOrdinal_mk] at h2o
  unfold Date.predDate
  simp only
  rcases Decidable.em (1 < day) with h | h
  · rw [if_pos h, valid_mk, toOrdinal_mk, toOrdinal_mk]
    omega
  · rw [if_neg h]
    have hday : day = 1 := by omega
    rcases Decidable.em (1 < m) with hm | hm
    · rw [if_pos hm, valid_mk, toOrdinal_mk, toOrdinal_mk]
      have hb := daysInMonth_bounds (y : Int) (m - 1) (by omega) (by omega)
      have hs := daysBeforeMonth_succ y (m - 1) (by omega)
      have hmm : m - 1 + 1 = m := by omega
      rw [hmm] at hs
      omega
    · rw [if_neg hm, valid_mk, toOrdinal_mk, toOrdinal_mk]
      have hm1 : m = 1 := by omega
      have hyy : 2 ≤ y := by
        by_contra hc
        have hy1 : y = 1 := by omega
        rw [hm1, hy1, daysBeforeMonth_one, hday] at h2o
        simp [daysBeforeYear] at h2o
      have hys := daysBeforeYear_succ (y - 1) (by omega)
      have hyr : y - 1 + 1 = y := by omega
      rw [hyr] at hys
      have h13 := daysBeforeMonth_13 (y - 1)
      have h12 : daysBeforeMonth (y - 1) 13 =
          daysBeforeMonth (y - 1) 12 + daysInMonth ((y - 1 : Nat) : Int) 12 :=
        daysBeforeMonth_succ (y - 1) 12 (by omega)
      rw [daysInMonth_12] at h12
      have h01 := daysBeforeMonth_one y
      rw [hm1, daysInMonth_12, hday]
      refine ⟨⟨by omega, by omega, by omega, by omega, le_rfl⟩, ?_⟩
      rcases Decidable.em (isleap ((y - 1 : Nat) : Int) = true) with hl | hl
      · rw [if_pos hl] at hys h13
        omega
      · rw [if_neg hl] at hys h13
        omega

theorem addN_spec (d : Date) (n : Nat) (hv : d.Valid) :
    (d.addN n).Valid ∧ (d.addN n).toOrdinal = d.toOrdinal + n := by
  induction n with
  | zero => exact ⟨hv, rfl⟩
  | succ n ih =>
    have hal : d.addN (n + 1) = (d.addN n).succDate := by
      simp [Date.addN, Function.iterate_succ_apply']
    have hstep := toOrdinal_succDate (d.addN n) ih.1
    rw [hal]
    exact ⟨hstep.1, by rw [hstep.2, ih.2]; omega⟩

theorem subN_spec (d : Date) (n : Nat) (hv : d.Valid) (hn : n < d.toOrdinal) :
    (d.subN n).Valid ∧ (d.subN n).toOrdinal + n = d.toOrdinal := by
  induction n with
  | zero => exact ⟨hv, rfl⟩
  | succ n ih =>
    obtain ⟨ihv, iho⟩ := ih (by omega)
    have hstep := toOrdinal_predDate (d.subN n) ihv (by omega)
    have hsl : d.subN (n + 1) = (d.subN n).predDate := by
      simp [Date.subN, Function.iterate_succ_apply']
    rw [hsl]
    exact ⟨hstep.1, by omega⟩

theorem weekday_lt (d : Date) : d.weekday < 7 :=
  Nat.mod_lt _ (by omega)

theorem weekday_addN (d : Date) (n : Nat) (hv : d.Valid) :
    (d.addN n).weekday = (d.weekday + n) % 7 := by
  have h := (addN_spec d n hv).2
  unfold Date.weekday
  omega

theorem weekday_lt_toOrdinal (d : Date) (hv : d.Valid) :
    d.weekday < d.toOrdinal := by
  have h1 := toOrdinal_pos d hv
  unfold Date.weekday
  omega

theorem weekday_subN_weekday (d : Date) (hv : d.Valid) :
    (d.subN d.weekday).weekday = 0 := by
  have h := (subN_spec d d.weekday hv (weekday_lt_toOrdinal d hv)).2
  unfold Date.weekday at *
  omega

theorem weekday_subN_addN (d : Date) (i : Nat) (hv : d.Valid)
    (hi : i ≤ d.weekday) :
    ((d.subN d.weekday).addN i).weekday = i % 7 := by
  have hsub := subN_spec d d.weekday hv (weekday_lt_toOrdinal d hv)
  have hadd := weekday_addN (d.subN d.weekday) i hsub.1
  rw [hadd, weekday_subN_weekday d hv]
  omega

theorem daysBeforeYear_10000 : daysBeforeYear 10000 = MAXORDINAL := by decide

theorem daysBeforeYear_9999 : daysBeforeYear 9999 = 3651694 := by decide

theorem toOrdinal_le_yearEnd (d : Date) (hv : d.Valid) :
    d.toOrdinal ≤ daysBeforeYear (d.year + 1) := by
  obtain ⟨h1, h2, h3, h4, h5⟩ := hv
  have hs : daysBeforeMonth d.year (d.month + 1) =
      daysBeforeMonth d.year d.month + daysInMonth (d.year : Int) d.month :=
    daysBeforeMonth_succ d.year d.month h2
  have hmono := daysBeforeMonth_mono d.year (d.month + 1) 13 (by omega) (by omega)
  have h13 := daysBeforeMonth_13 d.year
  have hys := daysBeforeYear_succ d.year h1
  unfold Date.toOrdinal
  rcases Decidable.em (isleap ((d.year : Nat) : Int) = true) with hl | hl
  · rw [if_pos hl] at h13 hys
    omega
  · rw [if_neg hl] at h13 hys
    omega

theorem toOrdinal_add7_le_yearEnd (d : Date) (hv : d.Valid) (hm : d.month ≤ 11) :
    d.toOrdinal + 7 ≤ daysBeforeYear (d.year + 1) := by
  obtain ⟨h1, h2, h3, h4, h5⟩ := hv
  have hs : daysBeforeMonth d.year (d.month + 1) =
      daysBeforeMonth d.year d.month + daysInMonth (d.year : Int) d.month :=
    daysBeforeMonth_succ d.year d.month h2
  have hmono := daysBeforeMonth_mono d.year (d.month + 1) 12 (by omega) (by omega)
  have h12 : daysBeforeMonth d.year 13 =
      daysBeforeMonth d.year 12 + daysInMonth (d.year : Int) 12 :=
    daysBeforeMonth_succ d.year 12 (by omega)
  rw [daysInMonth_12] at h12
  have h13 := daysBeforeMonth_13 d.year
  have hys := daysBeforeYear_succ d.year h1
  unfold Date.toOrdinal
  rcases Decidable.em (isleap ((d.year : Nat) : Int) = true) with hl | hl
  · rw [if_pos hl] at h13 hys
    omega
  · rw [if_neg hl] at h13 hys
    omega

theorem toOrdinal_le_max (d : Date) (hv : d.Valid) (hy : d.year ≤ 9999) :
    d.toOrdinal ≤ MAXORDINAL := by
  have h1 := toOrdinal_le_yearEnd d hv
  have h2 := daysBeforeYear_mono (d.year + 1) 10000 (by omega) (by omega)
  rw [daysBeforeYear_10000] at h2
  omega

theorem toOrdinal_add7_le_max (d : Date) (hv : d.Valid) (hy : d.year ≤ 9999)
    (hnot : ¬(d.year = 9999 ∧ d.month = 12)) :
    d.toOrdinal + 7 ≤ MAXORDINAL := by
  rcases Decidable.em (d.month ≤ 11) with hm | hm
  · have h1 := toOrdinal_add7_le_yearEnd d hv hm
    have h2 := daysBeforeYear_mono (d.year + 1) 10000 (by omega) (by omega)
    rw [daysBeforeYear_10000] at h2
    omega
  · have hm12 : d.month = 12 := by
      obtain ⟨_, _, h3, _, _⟩ := hv
      omega
    have hy9998 : d.year ≤ 9998 := by
      rcases Decidable.em (d.year = 9999) with h | h
      · exact absurd ⟨h, hm12⟩ hnot
      · omega
    have h1 := toOrdinal_le_yearEnd d hv
    have h2 := daysBeforeYear_mono (d.year + 1) 9999 (by omega) (by omega)
    rw [daysBeforeYear_9999] at h2
    unfold MAXORDINAL
    omega

/-! ### Structure of the built calendar -/

theorem applyDayData_spec (te : List (Date × TimeEntry))
    (hm : List (Date × PublicHoliday)) (rules : List EmployeeNonWorkingDay)
    (day : CalendarDay) :
    (applyDayData te hm rules day).date = day.date ∧
    (applyDayData te hm rules day).user = day.user ∧
    (applyDayData te hm rules day).is_weekend = day.is_weekend ∧
    (applyDayData te hm rules day).is_other_month = day.is_other_month ∧
    (applyDayData te hm rules day).time_entry =
      (match dictGet te day.date with
        | some entry => some entry
        | none => day.time_entry) ∧
    (applyDayData te hm rules day).is_public_holiday =
      (match dictGet hm day.date with
        | some _ => true
        | none => day.is_public_holiday) ∧
    (applyDayData te hm rules day).public_holiday_name =
      (match dictGet hm day.date with
        | some holiday => holiday.name
        | none => day.public_holiday_name) ∧
    (applyDayData te hm rules day).is_employee_non_working_day =
      (match rules.find? (fun r => r.applies_to_date day.date) with
        | some _ => true
        | none => day.is_employee_non_working_day) ∧
    (applyDayData te hm rules day).employee_non_working_reason =
      (match rules.find? (fun r => r.applies_to_date day.date) with
        | some r => r.reason.getD ""
        | none => day.employee_non_working_reason) := by
  unfold applyDayData
  cases hte : dictGet te day.date <;>
    cases hhm : dictGet hm day.date <;>
      cases hf : rules.find? (fun r => r.applies_to_date day.date) <;>
        simp only [hte, hhm, hf] <;> simp

theorem load_calendar_data_as_bind (year month : Int) (user : Nat)
    (te : List TimeEntry) (hol : List PublicHoliday)
    (nw : List EmployeeNonWorkingDay) :
    load_calendar_data year month user te hol nw =
      (monthrange year month).bind (fun last_day =>
        (date? year month 1).bind (fun month_start =>
          (date? year month (last_day : Int)).bind (fun month_end =>
            (buildMonthDays month_start.year month_start.month last_day month_end
                user).bind (fun days =>
              (publicHolidaysByDate (PublicHoliday.get_holidays_for_year hol year)
                  year month month_start month_end).bind (fun hol_by_date =>
                some (days.map
                  (applyDayData
                    (timeEntriesByDate (timeEntriesForMonth te user month_start month_end))
                    hol_by_date
                    (fetchNonWorkingDays nw user month_start month_end)))))))) := rfl

theorem load_calendar_data_some (year month : Int) (user : Nat)
    (te : List TimeEntry) (hol : List PublicHoliday)
    (nw : List EmployeeNonWorkingDay) (days : List CalendarDay)
    (h : load_calendar_data year month user te hol nw = some days) :
    ∃ (Y M : Nat) (hm : List (Date × PublicHoliday)),
      year = (Y : Int) ∧ 1 ≤ Y ∧ Y ≤ 9999 ∧ month = (M : Int) ∧ 1 ≤ M ∧ M ≤ 12 ∧
      (Date.mk Y M (daysInMonth (Y : Int) M)).toOrdinal + 1 ≤ MAXORDINAL ∧
      publicHolidaysByDate (PublicHoliday.get_holidays_for_year hol year) year month
        ⟨Y, M, 1⟩ ⟨Y, M, daysInMonth (Y : Int) M⟩ = some hm ∧
      days = (monthDates Y M (daysInMonth (Y : Int) M)).map (fun d =>
        applyDayData
          (timeEntriesByDate (timeEntriesForMonth te user ⟨Y, M, 1⟩
            ⟨Y, M, daysInMonth (Y : Int) M⟩))
          hm
          (fetchNonWorkingDays nw user ⟨Y, M, 1⟩ ⟨Y, M, daysInMonth (Y : Int) M⟩)
          (CalendarDay.init d user)) := by
  rw [load_calendar_data_as_bind] at h
  simp only [Option.bind_eq_some] at h
  obtain ⟨last_day, hmr, month_start, hms, month_end, hme, days0, hbd,
    hol_by_date, hhb, hfin⟩ := h
  unfold monthrange at hmr
  rcases Decidable.em (1 ≤ month ∧ month ≤ 12) with hcm | hcm
  swap
  · rw [if_neg hcm] at hmr
    exact absurd hmr (by simp)
  rw [if_pos hcm] at hmr
  injection hmr with hmr
  unfold date? at hms hme
  rcases Decidable.em (1 ≤ year ∧ year ≤ 9999 ∧ 1 ≤ month ∧ month ≤ 12 ∧
      1 ≤ (1 : Int) ∧ (1 : Int) ≤ (daysInMonth year month.toNat : Int)) with hcs | hcs
  swap
  · rw [if_neg hcs] at hms
    exact absurd hms (by simp)
  rw [if_pos hcs] at hms
  injection hms with hms
  rcases Decidable.em (1 ≤ year ∧ year ≤ 9999 ∧ 1 ≤ month ∧ month ≤ 12 ∧
      1 ≤ (last_day : Int) ∧ (last_day : Int) ≤ (daysInMonth year month.toNat : Int))
    with hce | hce
  swap
  · rw [if_neg hce] at hme
    exact absurd hme (by simp)
  rw [if_pos hce] at hme
  injection hme with hme
  obtain ⟨hy1, hy2, hmo1, hmo2, _, _⟩ := hcs
  subst hms
  subst hme
  injection hfin with hfin
  subst hfin
  unfold buildMonthDays at hbd
  cases hadd : (Date.mk year.toNat month.toNat ((last_day : Int)).toNat).add? 1 with
  | none =>
    rw [hadd] at hbd
    exact absurd hbd (by simp)
  | some nd =>
  rw [hadd] at hbd
  injection hbd with hbd
  subst hbd
  have hord : (Date.mk year.toNat month.toNat ((last_day : Int)).toNat).toOrdinal + 1 ≤
      MAXORDINAL := by
    unfold Date.add? at hadd
    rcases Decidable.em ((Date.mk year.toNat month.toNat
        ((last_day : Int)).toNat).toOrdinal + 1 ≤ MAXORDINAL) with hio | hio
    · exact hio
    · rw [if_neg hio] at hadd
      exact absurd hadd (by simp)
  have hyv : year = ((year.toNat : Nat) : Int) := by omega
  refine ⟨year.toNat, month.toNat, hol_by_date, by omega, by omega, by omega, by omega,
    by omega, by omega, ?_, ?_, ?_⟩
  · simp only [Int.toNat_natCast] at hord
    rw [← hmr] at hord
    rw [hyv] at hord
    simp only [Int.toNat_natCast] at hord
    exact hord
  · rw [← hyv]
    simp only [Int.toNat_one, Int.toNat_natCast] at hhb ⊢
    rw [hmr]
    exact hhb
  · rw [← hyv]
    simp only [Int.toNat_one, Int.toNat_natCast, List.map_map]
    rw [hmr]
    rfl

theorem loadCalendar_some (year month : Int) (user : Nat)
    (te : List TimeEntry) (hol : List PublicHoliday)
    (nw : List EmployeeNonWorkingDay) (cal : MonthlyCalendar)
    (h : loadCalendar year month user te hol nw = some cal) :
    load_calendar_data year month user te hol nw = some cal.days ∧
    cal.year = year ∧ cal.month = month ∧ cal.user = user := by
  unfold loadCalendar at h
  cases hld : load_calendar_data year month user te hol nw with
  | none =>
    rw [hld] at h
    exact absurd h (by simp)
  | some ds =>
    rw [hld] at h
    simp only [Option.map_some', Option.some.injEq] at h
    subst h
    exact ⟨rfl, rfl, rfl, rfl⟩

theorem find?_append_cons {α : Type} (p : α → Bool) (l1 l2 : List α) (a : α)
    (h1 : ∀ x ∈ l1, p x = false) (ha : p a = true) :
    (l1 ++ a :: l2).find? p = some a := by
  induction l1 with
  | nil => simpa using List.find?_cons_of_pos l2 ha
  | cons b tl ih =>
    have hb : p b = false := h1 b (by simp)
    rw [List.cons_append, List.find?_cons_of_neg _ (by simp [hb])]
    exact ih (fun x hx => h1 x (by simp [hx]))

theorem monthDates_length (y m L : Nat) : (monthDates y m L).length = L := by
  simp [monthDates]

theorem monthDates_get (y m L i : Nat) (hi : i < (monthDates y m L).length) :
    (monthDates y m L).get ⟨i, hi⟩ = ⟨y, m, i + 1⟩ := by
  simp [monthDates]



/-! ### Order facts about dates -/

theorem blt_eq_true_iff (a b : Date) :
    a.blt b = true ↔ (a.year < b.year ∨ (a.year = b.year ∧
      (a.month < b.month ∨ (a.month = b.month ∧ a.day < b.day)))) := by
  simp [Date.blt]

theorem ble_eq_true_iff (a b : Date) :
    a.ble b = true ↔ (a.year < b.year ∨ (a.year = b.year ∧
      (a.month < b.month ∨ (a.month = b.month ∧ a.day ≤ b.day)))) := by
  simp [Date.ble]

theorem blt_eq_false_of_ble (a b : Date) (h : b.ble a = true) : a.blt b = false := by
  rw [Bool.eq_false_iff]
  intro hc
  rw [blt_eq_true_iff] at hc
  rw [ble_eq_true_iff] at h
  omega

/-! ### List helpers -/

theorem head?_append_left {α : Type} (l1 l2 : List α) (h : l1 ≠ []) :
    (l1 ++ l2).head? = l1.head? := by
  cases l1 with
  | nil => exact absurd rfl h
  | cons a tl => simp

theorem mapM_option_eq_some {α β : Type} (f : α → Option β) (g : α → β)
    (l : List α) (h : ∀ a ∈ l, f a = some (g a)) :
    l.mapM f = some (l.map g) := by
  induction l with
  | nil => rfl
  | cons a tl ih =>
    rw [List.mapM_cons, h a (by simp), ih (fun x hx => h x (by simp [hx]))]
    rfl

/-! ### The week-grid loop -/

theorem weeksLoop_spec (L : List CalendarDay) (cur : List CalendarDay)
    (weeks : List (List CalendarDay)) (w : Nat)
    (hw : w < 7) (hcur : cur.length = w)
    (hwd : ∀ i (hi : i < L.length), (L.get ⟨i, hi⟩).date.weekday = (w + i) % 7)
    (hweeks : ∀ wk ∈ weeks, wk.length = 7 ∧
      ∃ dl, wk.getLast? = some dl ∧ dl.date.weekday = 6) :
    (∀ wk ∈ (weeksLoop L cur weeks).1, wk.length = 7 ∧
      ∃ dl, wk.getLast? = some dl ∧ dl.date.weekday = 6) ∧
    (weeksLoop L cur weeks).2.length = (w + L.length) % 7 ∧
    (weeksLoop L cur weeks).1.length = weeks.length + (w + L.length) / 7 ∧
    (weeksLoop L cur weeks).1.flatten ++ (weeksLoop L cur weeks).2 =
      weeks.flatten ++ cur ++ L := by
  induction L generalizing cur weeks w with
  | nil =>
    unfold weeksLoop
    refine ⟨hweeks, ?_, ?_, by simp⟩
    · simpa using by omega
    · simpa using by omega
  | cons d rest ih =>
    have hd0 : d.date.weekday = w := by
      have h0 : d.date.weekday = (w + 0) % 7 := hwd 0 (by simp)
      rw [h0]
      omega
    unfold weeksLoop
    rcases Decidable.em (w = 6) with h6 | h6
    · have hbeq : (d.date.weekday == 6) = true := by simp [hd0, h6]
      rw [hbeq]
      simp only [if_true]
      have hih := ih [] (weeks ++ [cur ++ [d]]) 0 (by omega) rfl
        (fun i hi => by
          have h1 : (rest.get ⟨i, hi⟩).date.weekday = (w + (i + 1)) % 7 :=
            hwd (i + 1) (by simpa using hi)
          rw [h1]
          omega)
        (fun wk hwk => by
          rcases List.mem_append.mp hwk with hin | hin
          · exact hweeks wk hin
          · have : wk = cur ++ [d] := by simpa using hin
            subst this
            refine ⟨by simp [hcur, h6], d, List.getLast?_concat cur, by omega⟩)
      refine ⟨hih.1, ?_, ?_, ?_⟩
      · rw [hih.2.1]
        simp only [List.length_cons]
        omega
      · rw [hih.2.2.1]
        simp only [List.length_append, List.length_cons, List.length_nil]
        omega
      · rw [hih.2.2.2]
        simp
    · have hbeq : (d.date.weekday == 6) = false := by simp [hd0, h6]
      rw [hbeq]
      simp only [Bool.false_eq_true, if_false]
      have hih := ih (cur ++ [d]) weeks (w + 1) (by omega) (by simp [hcur])
        (fun i hi => by
          have h1 : (rest.get ⟨i, hi⟩).date.weekday = (w + (i + 1)) % 7 :=
            hwd (i + 1) (by simpa using hi)
          rw [h1]
          omega)
        hweeks
      refine ⟨hih.1, ?_, ?_, ?_⟩
      · rw [hih.2.1]
        simp only [List.length_cons]
        omega
      · rw [hih.2.2.1]
        simp only [List.length_cons]
        omega
      · rw [hih.2.2.2]
        simp

theorem get_weeks_as_bind (c : MonthlyCalendar) (d1 : CalendarDay)
    (drest : List CalendarDay) (hdy : c.days = d1 :: drest) :
    c.get_weeks =
      (d1.date.sub? d1.date.weekday).bind (fun prev_month_start =>
        ((List.range d1.date.weekday).mapM (fun i =>
          (prev_month_start.add? i).bind (fun prev_date =>
            some { CalendarDay.init prev_date c.user with is_other_month := true }))).bind
        (fun lead =>
          if (weeksLoop (d1 :: drest) lead []).2.isEmpty then
            some (weeksLoop (d1 :: drest) lead []).1
          else
            ((List.range (6 - ((d1 :: drest).getLastD d1).date.weekday)).mapM (fun i =>
              (((d1 :: drest).getLastD d1).date.add? (i + 1)).bind (fun next_date =>
                some { CalendarDay.init next_date c.user with is_other_month := true }))).bind
            (fun trail =>
              some ((weeksLoop (d1 :: drest) lead []).1 ++
                [(weeksLoop (d1 :: drest) lead []).2 ++ trail])))) := by
  unfold MonthlyCalendar.get_weeks
  rw [hdy]
  rfl

theorem get_weeks_spec (c : MonthlyCalendar) (Y M : Nat)
    (hy1 : 1 ≤ Y) (hy2 : Y ≤ 9999) (hm1 : 1 ≤ M) (hm2 : M ≤ 12)
    (hnot : ¬(Y = 9999 ∧ M = 12))
    (hlen : c.days.length = daysInMonth (Y : Int) M)
    (hget : ∀ i (hi : i < c.days.length),
      (c.days.get ⟨i, hi⟩).date = ⟨Y, M, i + 1⟩) :
    ∃ wks, c.get_weeks = some wks ∧
      4 ≤ wks.length ∧ wks.length ≤ 6 ∧
      (∀ w ∈ wks, w.length = 7) ∧
      (∃ w1 dfirst, wks.head? = some w1 ∧ w1.head? = some dfirst ∧
        dfirst.date.weekday = 0) ∧
      (∃ wl dlast, wks.getLast? = some wl ∧ wl.getLast? = some dlast ∧
        dlast.date.weekday = 6) ∧
      (∀ w ∈ wks, ∀ d ∈ w, d ∈ c.days ∨
        (d.is_other_month = true ∧ d.time_entry = none ∧
          d.is_public_holiday = false ∧ d.is_employee_non_working_day = false ∧
          d.employee_non_working_reason = "" ∧ d.public_holiday_name = "")) := by
  have hdimb := daysInMonth_bounds (Y : Int) M hm1 hm2
  have hvd1 : (Date.mk Y M 1).Valid := by
    rw [valid_mk]
    exact ⟨hy1, hm1, hm2, by omega, by omega⟩
  have hvdi : ∀ i, i < daysInMonth (Y : Int) M → (Date.mk Y M (i + 1)).Valid := by
    intro i hi
    rw [valid_mk]
    exact ⟨hy1, hm1, hm2, by omega, by omega⟩
  have hordi : ∀ i, (Date.mk Y M (i + 1)).toOrdinal = (Date.mk Y M 1).toOrdinal + i := by
    intro i
    rw [toOrdinal_mk, toOrdinal_mk]
    omega
  have hwdi : ∀ i, (Date.mk Y M (i + 1)).weekday =
      ((Date.mk Y M 1).weekday + i) % 7 := by
    intro i
    unfold Date.weekday
    rw [hordi i]
    omega
  have hw0lt : (Date.mk Y M 1).weekday < 7 := weekday_lt _
  -- the days list is nonempty
  obtain ⟨d1, drest, hdy⟩ : ∃ d1 drest, c.days = d1 :: drest := by
    cases hc : c.days with
    | nil => rw [hc] at hlen; simp at hlen; omega
    | cons a b => exact ⟨a, b, rfl⟩
  have hgetq : ∀ i, i < c.days.length →
      ∃ x, c.days[i]? = some x ∧ x.date = ⟨Y, M, i + 1⟩ := by
    intro i hi
    refine ⟨c.days.get ⟨i, hi⟩, ?_, hget i hi⟩
    simp [List.getElem?_eq_getElem hi]
  rw [hdy] at hgetq hlen
  have hd1 : d1.date = ⟨Y, M, 1⟩ := by
    obtain ⟨x, hx1, hx2⟩ := hgetq 0 (by simp)
    simp only [List.getElem?_cons_zero, Option.some.injEq] at hx1
    rw [← hx1] at hx2
    exact hx2
  -- rewrite get_weeks into explicit bind form and resolve the leading pad
  rw [get_weeks_as_bind c d1 drest hdy, hd1]
  have hsub : (Date.mk Y M 1).sub? (Date.mk Y M 1).weekday =
      some ((Date.mk Y M 1).subN (Date.mk Y M 1).weekday) := by
    unfold Date.sub?
    rw [if_pos (weekday_lt_toOrdinal _ hvd1)]
  rw [hsub, Option.some_bind]
  have hprev := subN_spec (Date.mk Y M 1) (Date.mk Y M 1).weekday hvd1
    (weekday_lt_toOrdinal _ hvd1)
  have homax := toOrdinal_le_max (Date.mk Y M 1) hvd1 hy2
  have hlead : (List.range (Date.mk Y M 1).weekday).mapM (fun i =>
      (((Date.mk Y M 1).subN (Date.mk Y M 1).weekday).add? i).bind (fun prev_date =>
        some { CalendarDay.init prev_date c.user with is_other_month := true })) =
      some ((List.range (Date.mk Y M 1).weekday).map (fun i =>
        { CalendarDay.init (((Date.mk Y M 1).subN (Date.mk Y M 1).weekday).addN i)
            c.user with is_other_month := true })) := by
    apply mapM_option_eq_some
    intro i hi
    simp only [List.mem_range] at hi
    have hio : ((Date.mk Y M 1).subN (Date.mk Y M 1).weekday).toOrdinal + i ≤
        MAXORDINAL := by omega
    unfold Date.add?
    rw [if_pos hio, Option.some_bind]
  rw [hlead, Option.some_bind]
  set lead := (List.range (Date.mk Y M 1).weekday).map (fun i =>
    { CalendarDay.init (((Date.mk Y M 1).subN (Date.mk Y M 1).weekday).addN i)
        c.user with is_other_month := true }) with hleaddef
  have hleadlen : lead.length = (Date.mk Y M 1).weekday := by
    rw [hleaddef]
    simp
  have hwdL : ∀ i (hi : i < (d1 :: drest).length),
      ((d1 :: drest).get ⟨i, hi⟩).date.weekday =
        ((Date.mk Y M 1).weekday + i) % 7 := by
    intro i hi
    obtain ⟨x, hx1, hx2⟩ := hgetq i hi
    have hgx : (d1 :: drest).get ⟨i, hi⟩ = x := by
      have h2 := List.getElem?_eq_getElem hi
      rw [hx1] at h2
      injection h2 with h2
      rw [List.get_eq_getElem]
      exact h2.symm
    rw [hgx, hx2]
    exact hwdi i
  have hloop := weeksLoop_spec (d1 :: drest) lead [] (Date.mk Y M 1).weekday
    hw0lt hleadlen hwdL (by simp)
  obtain ⟨hAll, hCurLen, hCount, hFlat⟩ := hloop
  simp only [List.flatten_nil, List.nil_append, List.length_nil, Nat.zero_add] at hFlat hCount
  have hlen2 : (d1 :: drest).length = daysInMonth (Y : Int) M := hlen
  -- the head day of lead ++ days is always a Monday
  have hheadLM : ∃ dfirst, (lead ++ (d1 :: drest)).head? = some dfirst ∧
      dfirst.date.weekday = 0 := by
    rcases Decidable.em ((Date.mk Y M 1).weekday = 0) with hz | hz
    · have hle : lead = [] := by
        rw [hleaddef, hz]
        simp
      refine ⟨d1, by simp [hle], ?_⟩
      rw [hd1]
      have := hwdi 0
      omega
    · have hlne : lead ≠ [] := by
        intro hc
        rw [hc] at hleadlen
        simp at hleadlen
        omega
      rw [head?_append_left lead _ hlne]
      have h0lt : 0 < (Date.mk Y M 1).weekday := by omega
      have hl0 : lead[0]? = some { CalendarDay.init
          (((Date.mk Y M 1).subN (Date.mk Y M 1).weekday).addN 0) c.user with
          is_other_month := true } := by
        rw [hleaddef]
        rw [List.getElem?_map, List.getElem?_range h0lt]
        rfl
      rw [List.head?_eq_getElem?, hl0]
      refine ⟨_, rfl, ?_⟩
      show (((Date.mk Y M 1).subN (Date.mk Y M 1).weekday).addN 0).weekday = 0
      show ((Date.mk Y M 1).subN (Date.mk Y M 1).weekday).weekday = 0
      exact weekday_subN_weekday _ hvd1
  -- the membership property of lead ++ days
  have hmemLM : ∀ d ∈ lead ++ (d1 :: drest), d ∈ c.days ∨
      (d.is_other_month = true ∧ d.time_entry = none ∧
        d.is_public_holiday = false ∧ d.is_employee_non_working_day = false ∧
        d.employee_non_working_reason = "" ∧ d.public_holiday_name = "") := by
    intro d hd
    rcases List.mem_append.mp hd with hin | hin
    · right
      rw [hleaddef] at hin
      simp only [List.mem_map, List.mem_range] at hin
      obtain ⟨i, hi, hde⟩ := hin
      rw [← hde]
      exact ⟨rfl, rfl, rfl, rfl, rfl, rfl⟩
    · left
      rw [hdy]
      exact hin
  rcases Decidable.em ((weeksLoop (d1 :: drest) lead []).2.isEmpty = true) with hemp | hemp
  · -- the month ends exactly on a Sunday: no trailing pad
    rw [if_pos hemp]
    have hcur : (weeksLoop (d1 :: drest) lead []).2 = [] :=
      List.isEmpty_iff.mp hemp
    have he0 : ((Date.mk Y M 1).weekday + daysInMonth (Y : Int) M) % 7 = 0 := by
      rw [← hlen2, ← hCurLen, hcur]
      rfl
    have hflat2 : (weeksLoop (d1 :: drest) lead []).1.flatten = lead ++ (d1 :: drest) := by
      rw [← hFlat, hcur]
      simp
    have hcount2 : (weeksLoop (d1 :: drest) lead []).1.length =
        ((Date.mk Y M 1).weekday + daysInMonth (Y : Int) M) / 7 := by
      rw [hCount, hlen2]
    have hne : (weeksLoop (d1 :: drest) lead []).1 ≠ [] := by
      intro hc
      rw [hc] at hcount2
      simp at hcount2
      omega
    obtain ⟨w1, ws, hw1⟩ := List.exists_cons_of_ne_nil hne
    refine ⟨_, rfl, ?_, ?_, fun w hw => (hAll w hw).1, ?_, ?_, ?_⟩
    · rw [hcount2]
      omega
    · rw [hcount2]
      omega
    · -- first day of first week is a Monday
      obtain ⟨dfirst, hdf1, hdf2⟩ := hheadLM
      have hw1ne : w1 ≠ [] := by
        have := (hAll w1 (by rw [hw1]; simp)).1
        intro hc
        rw [hc] at this
        simp at this
      refine ⟨w1, dfirst, by rw [hw1]; rfl, ?_, hdf2⟩
      have : w1.head? = (lead ++ (d1 :: drest)).head? := by
        rw [← hflat2, hw1]
        simp only [List.flatten_cons]
        rw [head?_append_left _ _ hw1ne]
      rw [this, hdf1]
    · -- last day of last week is a Sunday
      have hwl : (weeksLoop (d1 :: drest) lead []).1.getLast? =
          some ((weeksLoop (d1 :: drest) lead []).1.getLast hne) :=
        List.getLast?_eq_getLast _ hne
      have hwlm := List.getLast_mem hne
      obtain ⟨hlen7, dl, hdl, hwd6⟩ := hAll _ hwlm
      exact ⟨_, dl, hwl, hdl, hwd6⟩
    · intro w hw d hd
      apply hmemLM
      rw [← hflat2]
      exact List.mem_flatten_of_mem hw hd
  · -- the last week is completed with trailing padding days
    rw [if_neg hemp]
    have hegt : ((Date.mk Y M 1).weekday + daysInMonth (Y : Int) M) % 7 ≠ 0 := by
      intro hc
      apply hemp
      rw [List.isEmpty_iff]
      rw [← List.length_eq_zero]
      rw [hCurLen, hlen2, hc]
    have hcongr2 : daysInMonth (Y : Int) M - 1 + 1 = daysInMonth (Y : Int) M := by
      omega
    have hlast : ((d1 :: drest).getLastD d1).date =
        ⟨Y, M, daysInMonth (Y : Int) M⟩ := by
      obtain ⟨x, hx1, hx2⟩ := hgetq ((d1 :: drest).length - 1) (by simp)
      rw [List.getLastD_eq_getLast?, List.getLast?_eq_getElem?, hx1]
      simp only [Option.getD_some]
      rw [hx2]
      have hcg : (d1 :: drest).length - 1 + 1 = daysInMonth (Y : Int) M := by
        rw [hlen2] at *
        omega
      rw [hcg]
    rw [hlast]
    have hwdlast : (Date.mk Y M (daysInMonth (Y : Int) M)).weekday =
        ((Date.mk Y M 1).weekday + (daysInMonth (Y : Int) M - 1)) % 7 := by
      have := hwdi (daysInMonth (Y : Int) M - 1)
      rw [hcongr2] at this
      exact this
    have hvlast : (Date.mk Y M (daysInMonth (Y : Int) M)).Valid := by
      have := hvdi (daysInMonth (Y : Int) M - 1) (by omega)
      rw [hcongr2] at this
      exact this
    have hmax7 := toOrdinal_add7_le_max (Date.mk Y M (daysInMonth (Y : Int) M))
      hvlast hy2 hnot
    have htrail : (List.range (6 - (Date.mk Y M (daysInMonth (Y : Int) M)).weekday)).mapM
        (fun i => ((Date.mk Y M (daysInMonth (Y : Int) M)).add? (i + 1)).bind
          (fun next_date =>
            some { CalendarDay.init next_date c.user with is_other_month := true })) =
        some ((List.range (6 - (Date.mk Y M (daysInMonth (Y : Int) M)).weekday)).map
          (fun i => { CalendarDay.init
              ((Date.mk Y M (daysInMonth (Y : Int) M)).addN (i + 1)) c.user with
            is_other_month := true })) := by
      apply mapM_option_eq_some
      intro i hi
      simp only [List.mem_range] at hi
      unfold Date.add?
      rw [if_pos (by omega), Option.some_bind]
    rw [htrail, Option.some_bind]
    set trail := (List.range (6 - (Date.mk Y M (daysInMonth (Y : Int) M)).weekday)).map
      (fun i => { CalendarDay.init
          ((Date.mk Y M (daysInMonth (Y : Int) M)).addN (i + 1)) c.user with
        is_other_month := true }) with htraildef
    have htraillen : trail.length = 6 - (Date.mk Y M (daysInMonth (Y : Int) M)).weekday := by
      rw [htraildef]
      simp
    have hcur2 : (weeksLoop (d1 :: drest) lead []).2.length =
        ((Date.mk Y M 1).weekday + daysInMonth (Y : Int) M) % 7 := by
      rw [hCurLen, hlen2]
    have hpne : (weeksLoop (d1 :: drest) lead []).1 ≠ [] := by
      intro hc
      have := hCount
      rw [hc, hlen2] at this
      simp at this
      omega
    obtain ⟨w1, ws, hw1⟩ := List.exists_cons_of_ne_nil hpne
    have hcount3 : (weeksLoop (d1 :: drest) lead []).1.length =
        ((Date.mk Y M 1).weekday + daysInMonth (Y : Int) M) / 7 := by
      rw [hCount, hlen2]
    refine ⟨_, rfl, ?_, ?_, ?_, ?_, ?_, ?_⟩
    · simp only [List.length_append, List.length_cons, List.length_nil]
      rw [hcount3]
      omega
    · simp only [List.length_append, List.length_cons, List.length_nil]
      rw [hcount3]
      omega
    · intro w hw
      rcases List.mem_append.mp hw with hin | hin
      · exact (hAll w hin).1
      · have hweq : w = (weeksLoop (d1 :: drest) lead []).2 ++ trail := by
          simpa using hin
        rw [hweq]
        simp only [List.length_append]
        rw [hcur2, htraillen, hwdlast]
        omega
    · -- first day of first week is a Monday
      obtain ⟨dfirst, hdf1, hdf2⟩ := hheadLM
      have hw1ne : w1 ≠ [] := by
        have := (hAll w1 (by rw [hw1]; simp)).1
        intro hc
        rw [hc] at this
        simp at this
      refine ⟨w1, dfirst, ?_, ?_, hdf2⟩
      · rw [head?_append_left _ _ (by rw [hw1]; simp), hw1]
        rfl
      · have : w1.head? = (lead ++ (d1 :: drest)).head? := by
          rw [← hFlat, hw1]
          simp only [List.flatten_cons, List.append_assoc]
          rw [head?_append_left _ _ hw1ne]
        rw [this, hdf1]
    · -- last day of last week is a Sunday
      have hkpos : 1 ≤ 6 - (Date.mk Y M (daysInMonth (Y : Int) M)).weekday := by
        rw [hwdlast]
        omega
      have htl : trail[trail.length - 1]? = some { CalendarDay.init
          ((Date.mk Y M (daysInMonth (Y : Int) M)).addN
            ((trail.length - 1) + 1)) c.user with is_other_month := true } := by
        rw [htraildef]
        rw [List.getElem?_map]
        simp only [List.length_map, List.length_range]
        rw [List.getElem?_range (by omega)]
        rfl
      have hgl : ((weeksLoop (d1 :: drest) lead []).2 ++ trail).getLast? =
          some { CalendarDay.init ((Date.mk Y M (daysInMonth (Y : Int) M)).addN
            ((trail.length - 1) + 1)) c.user with is_other_month := true } := by
        rw [List.getLast?_append, List.getLast?_eq_getElem?, htl]
        rfl
      refine ⟨_, _, List.getLast?_concat _, hgl, ?_⟩
      have hdeq : ({ CalendarDay.init ((Date.mk Y M (daysInMonth (Y : Int) M)).addN
          ((trail.length - 1) + 1)) c.user with is_other_month := true }
            : CalendarDay).date =
          (Date.mk Y M (daysInMonth (Y : Int) M)).addN ((trail.length - 1) + 1) := rfl
      rw [hdeq, weekday_addN _ _ hvlast, htraillen, hwdlast]
      omega
    · intro w hw d hd
      rcases List.mem_append.mp hw with hin | hin
      · apply hmemLM
        rw [← hFlat]
        exact List.mem_append_left _ (List.mem_flatten_of_mem hin hd)
      · have hweq : w = (weeksLoop (d1 :: drest) lead []).2 ++ trail := by
          simpa using hin
        rw [hweq] at hd
        rcases List.mem_append.mp hd with hin2 | hin2
        · apply hmemLM
          rw [← hFlat]
          exact List.mem_append_right _ hin2
        · right
          rw [htraildef] at hin2
          simp only [List.mem_map, List.mem_range] at hin2
          obtain ⟨i, hi, hde⟩ := hin2
          rw [← hde]
          exact ⟨rfl, rfl, rfl, rfl, rfl, rfl⟩

/-! ### Forward construction helpers -/

theorem load_calendar_data_build (Y M : Nat) (user : Nat)
    (te : List TimeEntry) (hol : List PublicHoliday)
    (nw : List EmployeeNonWorkingDay) (hmv : List (Date × PublicHoliday))
    (hm1 : 1 ≤ M) (hm2 : M ≤ 12) (hy1 : 1 ≤ Y) (hy2 : Y ≤ 9999)
    (hnot : ¬(Y = 9999 ∧ M = 12))
    (hhb : publicHolidaysByDate (PublicHoliday.get_holidays_for_year hol (Y : Int))
      (Y : Int) (M : Int) ⟨Y, M, 1⟩ ⟨Y, M, daysInMonth (Y : Int) M⟩ = some hmv) :
    load_calendar_data (Y : Int) (M : Int) user te hol nw =
      some ((monthDates Y M (daysInMonth (Y : Int) M)).map (fun d =>
        applyDayData (timeEntriesByDate (timeEntriesForMonth te user ⟨Y, M, 1⟩
            ⟨Y, M, daysInMonth (Y : Int) M⟩)) hmv
          (fetchNonWorkingDays nw user ⟨Y, M, 1⟩ ⟨Y, M, daysInMonth (Y : Int) M⟩)
          (CalendarDay.init d user))) := by
  have hdim := daysInMonth_bounds (Y : Int) M hm1 hm2
  rw [load_calendar_data_as_bind]
  have hmr : monthrange (Y : Int) (M : Int) = some (daysInMonth (Y : Int) M) := by
    unfold monthrange
    rw [if_pos (by constructor <;> omega)]
    simp
  have hms : date? (Y : Int) (M : Int) 1 = some ⟨Y, M, 1⟩ := by
    unfold date?
    rw [if_pos ?_]
    · simp
    · refine ⟨by omega, by omega, by omega, by omega, by omega, ?_⟩
      simp only [Int.toNat_natCast]
      omega
  have hme : date? (Y : Int) (M : Int) ((daysInMonth (Y : Int) M : Nat) : Int) =
      some ⟨Y, M, daysInMonth (Y : Int) M⟩ := by
    unfold date?
    rw [if_pos ?_]
    · simp
    · refine ⟨by omega, by omega, by omega, by omega, by omega, ?_⟩
      simp only [Int.toNat_natCast]
      omega
  have hvme : (Date.mk Y M (daysInMonth (Y : Int) M)).Valid := by
    rw [valid_mk]
    exact ⟨hy1, hm1, hm2, by omega, le_rfl⟩
  have hadd : (Date.mk Y M (daysInMonth (Y : Int) M)).add? 1 =
      some ((Date.mk Y M (daysInMonth (Y : Int) M)).addN 1) := by
    unfold Date.add?
    rw [if_pos ?_]
    have := toOrdinal_add7_le_max _ hvme hy2 hnot
    omega
  have hbd : buildMonthDays Y M (daysInMonth (Y : Int) M)
      (Date.mk Y M (daysInMonth (Y : Int) M)) user =
      some ((monthDates Y M (daysInMonth (Y : Int) M)).map
        (fun d => CalendarDay.init d user)) := by
    unfold buildMonthDays
    rw [hadd]
  rw [hmr, Option.some_bind, hms, Option.some_bind, hme, Option.some_bind, hbd,
    Option.some_bind, hhb, Option.some_bind]
  simp [List.map_map]

theorem publicHolidaysByDate_single_recurring (nm : String) (Y0 D M Y1 : Nat)
    (hm1 : 1 ≤ M) (hm2 : M ≤ 12) (hd1 : 1 ≤ D) (hy1 : 1 ≤ Y1) (hy2 : Y1 ≤ 9999)
    (hdD : D ≤ daysInMonth (Y1 : Int) M) :
    publicHolidaysByDate [⟨nm, ⟨Y0, M, D⟩, true⟩] (Y1 : Int) (M : Int)
      ⟨Y1, M, 1⟩ ⟨Y1, M, daysInMonth (Y1 : Int) M⟩ =
      some [(⟨Y1, M, D⟩, ⟨nm, ⟨Y0, M, D⟩, true⟩)] := by
  have hdd : date? (Y1 : Int) ((M : Nat) : Int) ((D : Nat) : Int) = some ⟨Y1, M, D⟩ := by
    unfold date?
    rw [if_pos ?_]
    · simp
    · refine ⟨by omega, by omega, by omega, by omega, by omega, ?_⟩
      simp only [Int.toNat_natCast]
      omega
  unfold publicHolidaysByDate
  simp only [List.foldlM, beq_self_eq_true, if_true, if_pos]
  rw [hdd]
  have hble : (Date.ble ⟨Y1, M, 1⟩ ⟨Y1, M, D⟩ && Date.ble ⟨Y1, M, D⟩
      ⟨Y1, M, daysInMonth (Y1 : Int) M⟩) = true := by
    simp [Date.ble]
    omega
  simp [hble, dictSet]

theorem publicHolidaysByDate_single_recurring_other (nm : String) (Y0 D M Y1 M2 : Nat)
    (hne : M ≠ M2) (ms me : Date) :
    publicHolidaysByDate [⟨nm, ⟨Y0, M, D⟩, true⟩] (Y1 : Int) (M2 : Int) ms me =
      some [] := by
  unfold publicHolidaysByDate
  have hb : (((M : Nat) : Int) == ((M2 : Nat) : Int)) = false := by
    simp [hne]
  simp [List.foldlM, hb]

/-- C2 (amended): a holiday stored with date (Y0, M, D) and recurring = true is
applied, when the calendar for (Y1, M) is built, exactly to the day (Y1, M, D)
(flag set and name attached) and to no other day of that month, and it is
applied to no day at all when another, buildable month is built -- provided
the calendar for (Y1, M) can be built at all: (Y1, M, D) must be a
constructible date, i.e. D must not exceed the day count of month M in year
Y1 (otherwise synthesizing the holiday date raises ValueError, see the
counterexample), and (Y1, M) must not be December 9999 (whose day loop
raises OverflowError stepping past the maximal date, so no such calendar
ever exists). -/
theorem C2_recurring_holiday (nm : String) (Y0 D M Y1 user : Nat)
    (hm1 : 1 ≤ M) (hm2 : M ≤ 12) (hd1 : 1 ≤ D) (hy1 : 1 ≤ Y1) (hy2 : Y1 ≤ 9999)
    (hnotD : ¬(Y1 = 9999 ∧ M = 12))
    (hdD : D ≤ daysInMonth (Y1 : Int) M) :
    (∃ cal, loadCalendar (Y1 : Int) (M : Int) user [] [⟨nm, ⟨Y0, M, D⟩, true⟩] []
        = some cal ∧
      ∀ day ∈ cal.days,
        (day.date.day = D → day.is_public_holiday = true ∧
          day.public_holiday_name = nm) ∧
        (day.date.day ≠ D → day.is_public_holiday = false)) ∧
    (∀ M2 : Nat, 1 ≤ M2 → M2 ≤ 12 → M2 ≠ M → ¬(Y1 = 9999 ∧ M2 = 12) →
      ∃ cal2, loadCalendar (Y1 : Int) (M2 : Int) user [] [⟨nm, ⟨Y0, M, D⟩, true⟩] []
          = some cal2 ∧
        ∀ day ∈ cal2.days, day.is_public_holiday = false) := by
  have hgh : PublicHoliday.get_holidays_for_year [⟨nm, ⟨Y0, M, D⟩, true⟩] (Y1 : Int) =
      [⟨nm, ⟨Y0, M, D⟩, true⟩] := by
    simp [PublicHoliday.get_holidays_for_year]
  constructor
  · have hhb := publicHolidaysByDate_single_recurring nm Y0 D M Y1 hm1 hm2 hd1 hy1 hy2 hdD
    have hbuild := load_calendar_data_build Y1 M user [] [⟨nm, ⟨Y0, M, D⟩, true⟩] []
      [(⟨Y1, M, D⟩, ⟨nm, ⟨Y0, M, D⟩, true⟩)] hm1 hm2 hy1 hy2 hnotD
      (by rw [hgh]; exact hhb)
    refine ⟨_, by unfold loadCalendar; rw [hbuild]; rfl, ?_⟩
    intro day hday
    simp only [List.mem_map] at hday
    obtain ⟨d0, hd0, hfd⟩ := hday
    simp only [monthDates, List.mem_map, List.mem_range] at hd0
    obtain ⟨j, hj, hd0e⟩ := hd0
    subst hd0e
    subst hfd
    have hspec := applyDayData_spec
      (timeEntriesByDate (timeEntriesForMonth [] user ⟨Y1, M, 1⟩
        ⟨Y1, M, daysInMonth (Y1 : Int) M⟩))
      [(⟨Y1, M, D⟩, ⟨nm, ⟨Y0, M, D⟩, true⟩)]
      (fetchNonWorkingDays [] user ⟨Y1, M, 1⟩ ⟨Y1, M, daysInMonth (Y1 : Int) M⟩)
      (CalendarDay.init ⟨Y1, M, j + 1⟩ user)
    have hdate : (CalendarDay.init ⟨Y1, M, j + 1⟩ user).date = ⟨Y1, M, j + 1⟩ := rfl
    constructor
    · intro hdayD
      rw [hspec.1, hdate] at hdayD
      simp only at hdayD
      subst hdayD
      have hget : dictGet [(⟨Y1, M, j + 1⟩, (⟨nm, ⟨Y0, M, j + 1⟩, true⟩ : PublicHoliday))]
          (CalendarDay.init ⟨Y1, M, j + 1⟩ user).date = some ⟨nm, ⟨Y0, M, j + 1⟩, true⟩ := by
        simp [dictGet, hdate]
      rw [hspec.2.2.2.2.2.1, hspec.2.2.2.2.2.2.1]
      rw [hget]
      exact ⟨rfl, rfl⟩
    · intro hdayD
      rw [hspec.1, hdate] at hdayD
      simp only at hdayD
      have hget : dictGet [((⟨Y1, M, D⟩ : Date), (⟨nm, ⟨Y0, M, D⟩, true⟩ : PublicHoliday))]
          (CalendarDay.init ⟨Y1, M, j + 1⟩ user).date = none := by
        simp only [dictGet, hdate]
        rw [List.find?_cons_of_neg]
        · rfl
        · simp only [beq_iff_eq, Date.mk.injEq, not_and]
          intro h1 h2
          omega
      rw [hspec.2.2.2.2.2.1]
      rw [hget]
      rfl
  · intro M2 h21 h22 h2ne h2no
    have hhb := publicHolidaysByDate_single_recurring_other nm Y0 D M Y1 M2
      (fun hc => h2ne hc.symm) ⟨Y1, M2, 1⟩ ⟨Y1, M2, daysInMonth (Y1 : Int) M2⟩
    have hbuild := load_calendar_data_build Y1 M2 user [] [⟨nm, ⟨Y0, M, D⟩, true⟩] []
      [] h21 h22 hy1 hy2 h2no (by rw [hgh]; exact hhb)
    refine ⟨_, by unfold loadCalendar; rw [hbuild]; rfl, ?_⟩
    intro day hday
    simp only [List.mem_map] at hday
    obtain ⟨d0, hd0, hfd⟩ := hday
    subst hfd
    have hspec := applyDayData_spec
      (timeEntriesByDate (timeEntriesForMonth [] user ⟨Y1, M2, 1⟩
        ⟨Y1, M2, daysInMonth (Y1 : Int) M2⟩))
      []
      (fetchNonWorkingDays [] user ⟨Y1, M2, 1⟩ ⟨Y1, M2, daysInMonth (Y1 : Int) M2⟩)
      (CalendarDay.init d0 user)
    rw [hspec.2.2.2.2.2.1]
    simp only [dictGet, List.find?_nil, Option.map_none']
    rfl

/-! ### The claims -/

/-- C5: the derived accessors of CalendarDay satisfy their defining equations:
is_workday equals not (is_weekend or is_public_holiday or
is_employee_non_working_day), is_missing_entry equals (is_workday and not
has_time_entry), and has_time_entry holds iff a time entry is attached. -/
theorem C5_derived_accessors (d : CalendarDay) :
    d.is_workday =
      !(d.is_weekend || d.is_public_holiday || d.is_employee_non_working_day) ∧
    d.is_missing_entry = (d.is_workday && !d.has_time_entry) ∧
    (d.has_time_entry = true ↔ d.time_entry ≠ none) := by
  refine ⟨rfl, rfl, ?_⟩
  cases h : d.time_entry <;> simp [CalendarDay.has_time_entry, h]

/-- C8: prev_month of a calendar for (y, 1) is (y - 1, 12) and next_month of a
calendar for (y, 12) is (y + 1, 1); for months 2..12 prev_month is (y, m - 1)
and for months 1..11 next_month is (y, m + 1) -- year rollover happens only at
the December/January boundaries. -/
theorem C8_navigation (c : MonthlyCalendar) :
    (c.month = 1 → c.prev_month = (c.year - 1, 12)) ∧
    (c.month = 12 → c.next_month = (c.year + 1, 1)) ∧
    (2 ≤ c.month → c.month ≤ 12 → c.prev_month = (c.year, c.month - 1)) ∧
    (1 ≤ c.month → c.month ≤ 11 → c.next_month = (c.year, c.month + 1)) := by
  refine ⟨fun h => ?_, fun h => ?_, fun h1 h2 => ?_, fun h1 h2 => ?_⟩
  · simp [MonthlyCalendar.prev_month, h]
  · simp [MonthlyCalendar.next_month, h]
  · have hne : ¬(c.month = 1) := by omega
    simp [MonthlyCalendar.prev_month, hne]
  · have hne : ¬(c.month = 12) := by omega
    simp [MonthlyCalendar.next_month, hne]

theorem C8_navigation_witness :
    ({ year := 2024, month := 1, user := 0, days := [] } : MonthlyCalendar).prev_month
        = (2023, 12) ∧
    ({ year := 2024, month := 12, user := 0, days := [] } : MonthlyCalendar).next_month
        = (2025, 1) := by
  constructor
  · have := (C8_navigation { year := 2024, month := 1, user := 0, days := [] }).1 rfl
    simpa using this
  · have := (C8_navigation { year := 2024, month := 12, user := 0, days := [] }).2.1 rfl
    simpa using this

/-- C9: for every out-of-range month value (month < 1 or month > 12),
constructing MonthlyCalendar fails with the exception raised by the underlying
days-in-month computation (modelled as none), uncaught and untranslated, and no
partial days list is exposed: construction is all-or-nothing. -/
theorem C9_invalid_month (year month : Int) (user : Nat)
    (te : List TimeEntry) (hol : List PublicHoliday)
    (nw : List EmployeeNonWorkingDay) (h : month < 1 ∨ 12 < month) :
    loadCalendar year month user te hol nw = none := by
  unfold loadCalendar
  rw [load_calendar_data_as_bind]
  unfold monthrange
  rw [if_neg (by omega)]
  rfl

theorem C9_invalid_month_witness :
    loadCalendar 2024 13 0 [] [] [] = none ∧
    loadCalendar 2024 0 0 [] [] [] = none :=
  ⟨C9_invalid_month 2024 13 0 [] [] [] (by omega),
    C9_invalid_month 2024 0 0 [] [] [] (by omega)⟩

/-- C10: the day-status flags are not mutually exclusive: in June 2024 with a
recurring June-1 holiday (a Saturday) and weekly non-working rules covering
every weekday, some single day is simultaneously weekend, public holiday and
employee-non-working; each of the stats counters weekends, holidays and
non_working_days is positive and their sum exceeds total_days. -/
theorem C10_overlapping_flags :
    loadCalendar 2024 6 0 [] [june1Holiday] everyWeekdayRules = some calJune2024 ∧
    calJune2024.days.any (fun d =>
      d.is_weekend && d.is_public_holiday && d.is_employee_non_working_day) = true ∧
    1 ≤ calJune2024.stats.weekends ∧ 1 ≤ calJune2024.stats.holidays ∧
    1 ≤ calJune2024.stats.non_working_days ∧
    calJune2024.stats.total_days < calJune2024.stats.weekends +
      calJune2024.stats.holidays + calJune2024.stats.non_working_days := by
  refine ⟨rfl, by decide, by decide, by decide, by decide, by decide⟩

/-- C2 counterexample: the claim fails as stated for a year Y1 in which
(Y1, M, D) is not a valid date: a recurring holiday stored on Feb 29, 2024
makes the February 2023 build raise ValueError from date(2023, 2, 29)
(modelled as none), so no CalendarDay is marked at all. -/
theorem C2_counterexample_feb29 :
    loadCalendar 2023 2 0 [] [feb29Holiday] [] = none := by decide

/-- C6: within its validity window, a non-working-day rule applies by pattern:
"specific" applies exactly to dates equal to its stored date, "weekly" with
weekday w applies exactly to dates whose weekday equals w, and "monthly" with
day_of_month d applies exactly to dates whose day-of-month equals d (in every
month, across year boundaries, the statement being independent of year and
month). -/
theorem C6_pattern_semantics (r : EmployeeNonWorkingDay) (cd : Date)
    (hw : r.windowRejects cd = false) :
    (∀ d0, r.pattern = "specific" → r.date = some d0 →
      r.applies_to_date cd = (d0 == cd)) ∧
    (∀ w, r.pattern = "weekly" → r.weekday = some w →
      r.applies_to_date cd = (cd.weekday == w)) ∧
    (∀ dm, r.pattern = "monthly" → r.day_of_month = some dm →
      r.applies_to_date cd = (cd.day == dm)) := by
  refine ⟨fun d0 hp hd => ?_, fun w hp hd => ?_, fun dm hp hd => ?_⟩ <;>
    simp [EmployeeNonWorkingDay.applies_to_date,
      EmployeeNonWorkingDay.patternMatches, hw, hp, hd]

theorem C6_pattern_semantics_witness :
    (weeklyRule 4).applies_to_date ⟨2024, 6, 7⟩ = (Date.weekday ⟨2024, 6, 7⟩ == 4) ∧
    (weeklyRule 4).applies_to_date ⟨2024, 6, 7⟩ = true ∧
    (weeklyRule 4).applies_to_date ⟨2024, 6, 8⟩ = false := by
  refine ⟨(C6_pattern_semantics (weeklyRule 4) ⟨2024, 6, 7⟩ (by decide)).2.1 4 rfl rfl,
    by decide, by decide⟩

/-- C7: validity-window semantics of applies_to_date: a date strictly before
valid_from or strictly after valid_until is rejected; for a date within the
inclusive window [valid_from, valid_until] the window check does not reject and
the result is exactly the pattern match; a missing bound is treated as
unbounded (the corresponding premise is vacuous). -/
theorem C7_validity_window (r : EmployeeNonWorkingDay) (cd : Date) :
    (∀ vf, r.valid_from = some vf → cd.blt vf = true →
      r.applies_to_date cd = false) ∧
    (∀ vu, r.valid_until = some vu → vu.blt cd = true →
      r.applies_to_date cd = false) ∧
    ((∀ vf, r.valid_from = some vf → vf.ble cd = true) →
      (∀ vu, r.valid_until = some vu → cd.ble vu = true) →
      r.applies_to_date cd = r.patternMatches cd) := by
  refine ⟨fun vf hvf hlt => ?_, fun vu hvu hlt => ?_, fun hf hu => ?_⟩
  · have hw : r.windowRejects cd = true := by
      unfold EmployeeNonWorkingDay.windowRejects
      rw [hvf]
      simp [hlt]
    simp [EmployeeNonWorkingDay.applies_to_date, hw]
  · have hw : r.windowRejects cd = true := by
      unfold EmployeeNonWorkingDay.windowRejects
      rw [hvu]
      cases hvf : r.valid_from <;> simp [hlt]
    simp [EmployeeNonWorkingDay.applies_to_date, hw]
  · have hw : r.windowRejects cd = false := by
      unfold EmployeeNonWorkingDay.windowRejects
      cases hvf : r.valid_from with
      | none =>
        cases hvu : r.valid_until with
        | none => simp
        | some vu => simp [blt_eq_false_of_ble vu cd (hu vu hvu)]
      | some vf =>
        cases hvu : r.valid_until with
        | none => simp [blt_eq_false_of_ble cd vf (hf vf hvf)]
        | some vu =>
          simp [blt_eq_false_of_ble cd vf (hf vf hvf),
            blt_eq_false_of_ble vu cd (hu vu hvu)]
    simp [EmployeeNonWorkingDay.applies_to_date, hw]

theorem C7_validity_window_witness :
    boundedMonthlyRule.applies_to_date ⟨2024, 1, 10⟩ = false ∧
    boundedMonthlyRule.applies_to_date ⟨2024, 4, 15⟩ = false ∧
    boundedMonthlyRule.applies_to_date ⟨2024, 1, 15⟩ =
      boundedMonthlyRule.patternMatches ⟨2024, 1, 15⟩ := by
  refine ⟨(C7_validity_window boundedMonthlyRule ⟨2024, 1, 10⟩).1 ⟨2024, 1, 15⟩ rfl (by decide),
    (C7_validity_window boundedMonthlyRule ⟨2024, 4, 15⟩).2.1 ⟨2024, 3, 15⟩ rfl (by decide),
    (C7_validity_window boundedMonthlyRule ⟨2024, 1, 15⟩).2.2 ?_ ?_⟩
  · intro vf hvf
    injection hvf with hvf
    rw [← hvf]
    decide
  · intro vu hvu
    injection hvu with hvu
    rw [← hvu]
    decide

/-- C1: for every successfully constructed MonthlyCalendar(year, month, user),
days contains exactly days_in_month(year, month) CalendarDay elements, one per
date of the month in ascending date order, with days[0].date the 1st and the
last element's date the last day of the month (leap years handled by the
days-in-month computation). -/
theorem C1_days_one_per_date (year month : Int) (user : Nat)
    (te : List TimeEntry) (hol : List PublicHoliday)
    (nw : List EmployeeNonWorkingDay) (cal : MonthlyCalendar)
    (h : loadCalendar year month user te hol nw = some cal) :
    cal.days.length = daysInMonth year month.toNat ∧
    (∀ i (hi : i < cal.days.length),
      (cal.days.get ⟨i, hi⟩).date = ⟨year.toNat, month.toNat, i + 1⟩) ∧
    List.Chain' (fun a b => a.date.blt b.date = true) cal.days ∧
    cal.days.head?.map (fun d => d.date) = some ⟨year.toNat, month.toNat, 1⟩ ∧
    cal.days.getLast?.map (fun d => d.date) =
      some ⟨year.toNat, month.toNat, daysInMonth year month.toNat⟩ := by
  obtain ⟨hld, -, -, -⟩ := loadCalendar_some year month user te hol nw cal h
  obtain ⟨Y, M, hm, hyv, hy1, hy2, hmv, hm1, hm2, hord, hhb, hdays⟩ :=
    load_calendar_data_some year month user te hol nw cal.days hld
  subst hyv
  subst hmv
  simp only [Int.toNat_natCast]
  have hb := daysInMonth_bounds (Y : Int) M hm1 hm2
  rw [hdays]
  have hlen : ((monthDates Y M (daysInMonth (Y : Int) M)).map (fun d =>
      applyDayData
        (timeEntriesByDate (timeEntriesForMonth te user ⟨Y, M, 1⟩
          ⟨Y, M, daysInMonth (Y : Int) M⟩))
        hm
        (fetchNonWorkingDays nw user ⟨Y, M, 1⟩ ⟨Y, M, daysInMonth (Y : Int) M⟩)
        (CalendarDay.init d user))).length = daysInMonth (Y : Int) M := by
    simp [monthDates_length]
  have hget : ∀ i (hi : i < ((monthDates Y M (daysInMonth (Y : Int) M)).map (fun d =>
      applyDayData
        (timeEntriesByDate (timeEntriesForMonth te user ⟨Y, M, 1⟩
          ⟨Y, M, daysInMonth (Y : Int) M⟩))
        hm
        (fetchNonWorkingDays nw user ⟨Y, M, 1⟩ ⟨Y, M, daysInMonth (Y : Int) M⟩)
        (CalendarDay.init d user))).length),
      (((monthDates Y M (daysInMonth (Y : Int) M)).map (fun d =>
      applyDayData
        (timeEntriesByDate (timeEntriesForMonth te user ⟨Y, M, 1⟩
          ⟨Y, M, daysInMonth (Y : Int) M⟩))
        hm
        (fetchNonWorkingDays nw user ⟨Y, M, 1⟩ ⟨Y, M, daysInMonth (Y : Int) M⟩)
        (CalendarDay.init d user))).get ⟨i, hi⟩).date = ⟨Y, M, i + 1⟩ := by
    intro i hi
    simp only [List.get_eq_getElem, List.getElem_map]
    rw [(applyDayData_spec _ _ _ _).1]
    have hi2 : i < daysInMonth (Y : Int) M := by
      rw [hlen] at hi
      exact hi
    simp [monthDates, CalendarDay.init, hi2]
  refine ⟨hlen, hget, ?_, ?_, ?_⟩
  · rw [List.chain'_iff_get]
    intro i hip
    rw [hget i (by omega), hget (i + 1) (by omega)]
    simp [Date.blt]
  · rw [List.head?_eq_getElem?, List.getElem?_eq_getElem (by omega), Option.map_some']
    have := hget 0 (by omega)
    rw [List.get_eq_getElem] at this
    rw [this]
  · rw [List.getLast?_eq_getElem?, List.getElem?_eq_getElem (by omega), Option.map_some']
    have hL1 : (((monthDates Y M (daysInMonth (Y : Int) M)).map (fun d =>
      applyDayData
        (timeEntriesByDate (timeEntriesForMonth te user ⟨Y, M, 1⟩
          ⟨Y, M, daysInMonth (Y : Int) M⟩))
        hm
        (fetchNonWorkingDays nw user ⟨Y, M, 1⟩ ⟨Y, M, daysInMonth (Y : Int) M⟩)
        (CalendarDay.init d user))).length - 1) + 1 = daysInMonth (Y : Int) M := by
      omega
    have := hget (((monthDates Y M (daysInMonth (Y : Int) M)).map (fun d =>
      applyDayData
        (timeEntriesByDate (timeEntriesForMonth te user ⟨Y, M, 1⟩
          ⟨Y, M, daysInMonth (Y : Int) M⟩))
        hm
        (fetchNonWorkingDays nw user ⟨Y, M, 1⟩ ⟨Y, M, daysInMonth (Y : Int) M⟩)
        (CalendarDay.init d user))).length - 1) (by omega)
    rw [List.get_eq_getElem] at this
    rw [this, hL1]

/-- C4: at most one non-working-day reason is attached per day: the overlay
scans the fetched non-working-day rules in iteration order and attaches the
first rule whose applies_to_date is true, stopping there, so later matching
rules never overwrite the attached reason; if no fetched rule matches, no
reason is attached. -/
theorem C4_first_match_wins (year month : Int) (user : Nat)
    (te : List TimeEntry) (hol : List PublicHoliday)
    (nw : List EmployeeNonWorkingDay) (cal : MonthlyCalendar)
    (h : loadCalendar year month user te hol nw = some cal)
    (day : CalendarDay) (hd : day ∈ cal.days) :
    (∀ l1 r l2,
      fetchNonWorkingDays nw user ⟨year.toNat, month.toNat, 1⟩
          ⟨year.toNat, month.toNat, daysInMonth year month.toNat⟩ = l1 ++ r :: l2 →
      (∀ x ∈ l1, x.applies_to_date day.date = false) →
      r.applies_to_date day.date = true →
      day.is_employee_non_working_day = true ∧
        day.employee_non_working_reason = r.reason.getD "") ∧
    ((∀ r ∈ fetchNonWorkingDays nw user ⟨year.toNat, month.toNat, 1⟩
          ⟨year.toNat, month.toNat, daysInMonth year month.toNat⟩,
        r.applies_to_date day.date = false) →
      day.is_employee_non_working_day = false ∧
        day.employee_non_working_reason = "") := by
  obtain ⟨hld, -, -, -⟩ := loadCalendar_some year month user te hol nw cal h
  obtain ⟨Y, M, hm, hyv, hy1, hy2, hmv, hm1, hm2, hord, hhb, hdays⟩ :=
    load_calendar_data_some year month user te hol nw cal.days hld
  subst hyv
  subst hmv
  simp only [Int.toNat_natCast]
  rw [hdays] at hd
  rw [List.mem_map] at hd
  obtain ⟨d0, hd0, hfd⟩ := hd
  subst hfd
  have hspec := applyDayData_spec
    (timeEntriesByDate (timeEntriesForMonth te user ⟨Y, M, 1⟩
      ⟨Y, M, daysInMonth (Y : Int) M⟩))
    hm
    (fetchNonWorkingDays nw user ⟨Y, M, 1⟩ ⟨Y, M, daysInMonth (Y : Int) M⟩)
    (CalendarDay.init d0 user)
  have hdate := hspec.1
  have hflag := hspec.2.2.2.2.2.2.2.1
  have hreason := hspec.2.2.2.2.2.2.2.2
  constructor
  · intro l1 r l2 hsplit hfalse happlies
    rw [hdate] at hfalse happlies
    have hfind : (fetchNonWorkingDays nw user ⟨Y, M, 1⟩
        ⟨Y, M, daysInMonth (Y : Int) M⟩).find?
          (fun x => x.applies_to_date (CalendarDay.init d0 user).date) = some r := by
      rw [hsplit]
      exact find?_append_cons _ l1 l2 r hfalse happlies
    rw [hfind] at hflag hreason
    exact ⟨hflag, hreason⟩
  · intro hall
    rw [hdate] at hall
    have hfind : (fetchNonWorkingDays nw user ⟨Y, M, 1⟩
        ⟨Y, M, daysInMonth (Y : Int) M⟩).find?
          (fun x => x.applies_to_date (CalendarDay.init d0 user).date) = none := by
      rw [List.find?_eq_none]
      intro x hx
      simp [hall x hx]
    rw [hfind] at hflag hreason
    refine ⟨hflag, hreason⟩

/-- C3: for every valid (year, month in 1..12, user) whose calendar can be
constructed at all (December 9999 cannot: its day loop raises OverflowError
during construction, so get_weeks is never reachable there), get_weeks()
returns between 4 and 6 weeks inclusive, each of exactly 7 CalendarDay
elements, the first day of the first week a Monday, the last day of the last
week a Sunday, and every day is either a day of the month or a padding day
flagged is_other_month carrying no time-entry, holiday or non-working
overlay; days of the month are never flagged is_other_month. -/
theorem C3_week_grid (year month : Int) (user : Nat)
    (te : List TimeEntry) (hol : List PublicHoliday)
    (nw : List EmployeeNonWorkingDay) (cal : MonthlyCalendar)
    (h : loadCalendar year month user te hol nw = some cal) :
    ∃ wks, cal.get_weeks = some wks ∧
      4 ≤ wks.length ∧ wks.length ≤ 6 ∧
      (∀ w ∈ wks, w.length = 7) ∧
      (∃ w1 dfirst, wks.head? = some w1 ∧ w1.head? = some dfirst ∧
        dfirst.date.weekday = 0) ∧
      (∃ wl dlast, wks.getLast? = some wl ∧ wl.getLast? = some dlast ∧
        dlast.date.weekday = 6) ∧
      (∀ w ∈ wks, ∀ d ∈ w, d ∈ cal.days ∨
        (d.is_other_month = true ∧ d.time_entry = none ∧
          d.is_public_holiday = false ∧ d.is_employee_non_working_day = false ∧
          d.employee_non_working_reason = "" ∧ d.public_holiday_name = "")) ∧
      (∀ d ∈ cal.days, d.is_other_month = false) := by
  obtain ⟨hld, -, -, -⟩ := loadCalendar_some year month user te hol nw cal h
  obtain ⟨Y, M, hm, hyv, hy1, hy2, hmv, hm1, hm2, hord, hhb, hdays⟩ :=
    load_calendar_data_some year month user te hol nw cal.days hld
  subst hyv
  subst hmv
  have hxn : ¬(Y = 9999 ∧ M = 12) := by
    intro hc
    obtain ⟨e1, e2⟩ := hc
    subst e1
    subst e2
    exact absurd hord (by decide)
  have hlen : cal.days.length = daysInMonth (Y : Int) M := by
    rw [hdays]
    simp [monthDates]
  have hget : ∀ i (hi : i < cal.days.length),
      (cal.days.get ⟨i, hi⟩).date = ⟨Y, M, i + 1⟩ := by
    rw [hdays]
    intro i hi
    simp only [List.get_eq_getElem, List.getElem_map]
    rw [(applyDayData_spec _ _ _ _).1]
    have hi2 : i < daysInMonth (Y : Int) M := by
      simpa [monthDates] using hi
    simp [monthDates, CalendarDay.init, hi2]
  have hother : ∀ d ∈ cal.days, d.is_other_month = false := by
    intro d hd
    rw [hdays] at hd
    rw [List.mem_map] at hd
    obtain ⟨d0, hd0, hfd⟩ := hd
    rw [← hfd]
    rw [(applyDayData_spec _ _ _ _).2.2.2.1]
    rfl
  obtain ⟨wks, hg1, hg2, hg3, hg4, hg5, hg6, hg7⟩ :=
    get_weeks_spec cal Y M hy1 hy2 hm1 hm2 hxn hlen hget
  exact ⟨wks, hg1, hg2, hg3, hg4, hg5, hg6, hg7, hother⟩

theorem C1_days_one_per_date_witness :
    calJan2024.days.length = daysInMonth 2024 1 ∧
    calJan2024.days.head?.map (fun d => d.date) = some ⟨2024, 1, 1⟩ ∧
    calJan2024.days.getLast?.map (fun d => d.date) = some ⟨2024, 1, 31⟩ := by
  have h := C1_days_one_per_date 2024 1 0 [] [] [] calJan2024 rfl
  refine ⟨h.1, h.2.2.2.1, ?_⟩
  have h2 := h.2.2.2.2
  rw [h2]
  decide

theorem C2_recurring_holiday_witness :
    ∃ cal, loadCalendar 2025 1 0 [] [⟨"Neujahr", ⟨2024, 1, 1⟩, true⟩] [] = some cal ∧
      ∀ day ∈ cal.days,
        (day.date.day = 1 → day.is_public_holiday = true ∧
          day.public_holiday_name = "Neujahr") ∧
        (day.date.day ≠ 1 → day.is_public_holiday = false) := by
  have h := (C2_recurring_holiday "Neujahr" 2024 1 1 2025 0 (by omega) (by omega)
    (by omega) (by omega) (by omega) (by omega) (by decide)).1
  exact h

theorem C3_week_grid_witness :
    ∃ wks, calJan2024.get_weeks = some wks ∧
      4 ≤ wks.length ∧ wks.length ≤ 6 ∧
      (∀ w ∈ wks, w.length = 7) ∧
      (∃ w1 dfirst, wks.head? = some w1 ∧ w1.head? = some dfirst ∧
        dfirst.date.weekday = 0) ∧
      (∃ wl dlast, wks.getLast? = some wl ∧ wl.getLast? = some dlast ∧
        dlast.date.weekday = 6) ∧
      (∀ w ∈ wks, ∀ d ∈ w, d ∈ calJan2024.days ∨
        (d.is_other_month = true ∧ d.time_entry = none ∧
          d.is_public_holiday = false ∧ d.is_employee_non_working_day = false ∧
          d.employee_non_working_reason = "" ∧ d.public_holiday_name = "")) ∧
      (∀ d ∈ calJan2024.days, d.is_other_month = false) :=
  C3_week_grid 2024 1 0 [] [] [] calJan2024 rfl

theorem C4_first_match_wins_witness :
    (calJan2024TwoRules.days.getD 9 (CalendarDay.init ⟨1, 1, 1⟩ 0)).is_employee_non_working_day
        = true ∧
    (calJan2024TwoRules.days.getD 9 (CalendarDay.init ⟨1, 1, 1⟩ 0)).employee_non_working_reason
        = "Persoenlicher Tag" := by
  have h := (C4_first_match_wins 2024 1 0 [] [] [specificRule0110, weeklyWedRule]
      calJan2024TwoRules rfl
      (calJan2024TwoRules.days.getD 9 (CalendarDay.init ⟨1, 1, 1⟩ 0))
      (by decide)).1 [] specificRule0110 [weeklyWedRule] (by decide)
      (by simp) (by decide)
  simpa using h

end Timelog
